import Mathlib

/- Shallow embedding of `src/chat-edit-workflow.service.ts`: the chat edit
workflow service (state machine, streamed-event reducer, numeric selection
parsing) and the paragraph-edits component (feedback highlighting).

Modelling conventions:
- JS strings are Lean `String` values; character-level operations work on
  their `List Char` data (JS string indices are modelled by code-point
  positions, and JS whitespace by the ASCII whitespace characters).
- JS `undefined` / `null` / value distinctions are modelled by `JsVal`
  where the code distinguishes all three, and by `Option` where only
  presence matters.
- External collaborators (the backend API, file-text extraction, markdown
  conversion) are modelled as parameters: e.g. the text extracted from an
  uploaded file is an `Option String` argument (`none` = extraction threw),
  and the helper functions imported from `utils/` that are not among the
  sources are either universally quantified parameters of the theorems or
  definitions explicitly marked `Modelled from the spec`.
- Message emission is modelled for the operations whose claims concern it;
  purely presentational message payloads elsewhere are not tracked. -/

/-- JsVal distinguishes the three states a JavaScript field can be in:
`undefined`, `null`, or an actual value. -/
inductive JsVal (α : Type) where
  | undef : JsVal α
  | null : JsVal α
  | val : α → JsVal α
deriving DecidableEq

/-- Whitespace characters of the JS `\s` class (ASCII fragment) as used by
`String.prototype.trim` and the split/trim steps of the service. -/
def isJsSpace (c : Char) : Bool :=
  c = ' ' || c = '\t' || c = '\n' || c = '\r' || c = '\x0b' || c = '\x0c'

/-- Character-list version of `String.prototype.trim`. -/
def trimChars (s : List Char) : List Char :=
  ((s.dropWhile isJsSpace).reverse.dropWhile isJsSpace).reverse

/-- Model of `s.trim()`. -/
def jsTrim (s : String) : String := String.mk (trimChars s.data)

/-- Model of the JS string fallback `a || b` for an optional `a`
(`undefined`, `null` and the empty string are falsy). -/
def jsOrS (a : Option String) (b : String) : String :=
  match a with
  | some s => if s = "" then b else s
  | none => b

/-- Truthiness of an optional string (`undefined`/`null`/`""` are falsy). -/
def jsTruthyS (a : Option String) : Bool :=
  match a with
  | some s => s ≠ ""
  | none => false

/-- Model of `list.findIndex(f)` returning the first matching position
(`none` for the JS result `-1`). -/
def jsFindIndex {α : Type} (f : α → Bool) : List α → Option Nat
  | [] => none
  | a :: as => if f a then some 0 else (jsFindIndex f as).map (· + 1)

/-- Helper for `jsMapIdx`, carrying the index of the head element. -/
def jsMapIdxGo {α β : Type} (f : Nat → α → β) (k : Nat) : List α → List β
  | [] => []
  | a :: as => f k a :: jsMapIdxGo f (k + 1) as

/-- Model of `list.map((x, i) => ...)`. -/
def jsMapIdx {α β : Type} (f : Nat → α → β) (l : List α) : List β :=
  jsMapIdxGo f 0 l

/-- EditorialFeedbackItem: the fields of a backend feedback item that the
service and the component read (`fb.issue`, `fb.fix`, `fb.priority`,
`fb.approved`; the issue and fix may be absent, and `approved` may be
true, false, null or undefined). -/
structure EditorialFeedbackItem where
  issue : Option String
  fix : Option String
  priority : String
  approved : JsVal Bool
deriving DecidableEq

/-- The per-editor feedback record built by the service
(`development`/`content`/`copy`/`line`/`brand`). -/
structure EditorialFeedback where
  development : List EditorialFeedbackItem
  content : List EditorialFeedbackItem
  copy : List EditorialFeedbackItem
  line : List EditorialFeedbackItem
  brand : List EditorialFeedbackItem
deriving DecidableEq

/-- ParagraphEdit as constructed by the service reducer. `autoApproved` and
`approved` use `Option Bool` with `none` modelling JS `null`; the display
fields use `none` for `undefined` (the component clears them). -/
structure ParagraphEdit where
  index : Int
  original : String
  edited : String
  tags : List String
  autoApproved : Option Bool
  approved : Option Bool
  editorial_feedback : Option EditorialFeedback
  displayOriginal : Option String
  displayEdited : Option String
deriving DecidableEq

/-- EditWorkflowStep, line 14 of the source. -/
inductive EditWorkflowStep where
  | idle
  | awaiting_editors
  | awaiting_content
  | processing
  | awaiting_approval
deriving DecidableEq

/-- EditWorkflowState, lines 16-22. The `File` object is modelled by its
name. -/
structure EditWorkflowState where
  step : EditWorkflowStep
  uploadedFile : Option String
  selectedEditors : List String
  originalContent : String
  paragraphEdits : List ParagraphEdit
deriving DecidableEq

/-- Message types of EditWorkflowMessage, line 25. -/
inductive MsgType where
  | prompt
  | result
  | update
deriving DecidableEq

/-- An emitted EditWorkflowMessage, reduced to the type and the text
content (timestamps and rendering metadata are presentation-only). -/
structure Msg where
  mtype : MsgType
  content : String
deriving DecidableEq

/-- EditorOption, lines 30-38 (the `disabled`/`alwaysSelected` display
flags are set only when building selection messages). -/
structure EditorOption where
  id : String
  name : String
  icon : String
  description : String
  selected : Bool
deriving DecidableEq

/-- The `editorOptions` list, lines 81-117. -/
def editorOptions : List EditorOption :=
  [ ⟨"development", "Development Editor", "🚀",
      "Reviews and restructures content for alignment and coherence", false⟩,
    ⟨"content", "Content Editor", "📄",
      "Refines language to align with the author\x27s objectives", false⟩,
    ⟨"line", "Line Editor", "📝",
      "Improves sentence flow, readability and style preserving voice", false⟩,
    ⟨"copy", "Copy Editor", "✏️",
      "Corrects grammar, punctuation and typos", false⟩,
    ⟨"brand-alignment", "PwC Brand Alignment Editor", "🎯",
      "Aligns content writing standards with PwC brand", true⟩ ]

/-- The valid editor ids (`this.editorOptions.map(e => e.id)`). -/
def validEditorIds : List String := editorOptions.map (·.id)

/-- getDefaultState, lines 1255-1263. -/
def getDefaultState : EditWorkflowState :=
  ⟨.idle, none, ["brand-alignment"], "", []⟩

/-- Modelled from the spec: `allParagraphsDecided` is imported from
`utils/paragraph-edit.utils.ts`, a file of this repository that is not
among the sources. Per the spec it decides whether every paragraph-level
diff has been approved or rejected (it is false exactly when some edit
still has a null `approved`). Modelled as: every edit has a non-null
`approved` field. -/
def allParagraphsDecided (edits : List ParagraphEdit) : Bool :=
  edits.all (fun p => p.approved.isSome)

/-- The shared "ensure brand-alignment is always included" push pattern
(lines 188-191, 434-436, 530-532, 572-575, 617-620, 677-680). -/
def ensureBrandAlignment (ids : List String) : List String :=
  if "brand-alignment" ∈ ids then ids else ids ++ ["brand-alignment"]

/-- The cancellation prompt of cancelWorkflow, lines 1220-1224. -/
def cancelMessage : Msg :=
  ⟨.prompt, "Edit workflow cancelled. How else can I help you?"⟩

/-- cancelWorkflow, lines 1208-1230. The Bool records whether the
`workflowCompleted` event fired. -/
def cancelWorkflow (st : EditWorkflowState) : EditWorkflowState × List Msg × Bool :=
  if st.step = .idle then (st, [], false)
  else if st.step = .processing then (st, [], false)
  else (getDefaultState, [cancelMessage], true)

/-- completeWorkflow, lines 1232-1243: resets the sequential tracking
fields (threadId etc., modelled separately where needed), restores the
default state and fires `workflowCompleted`. -/
def completeWorkflow (_st : EditWorkflowState) : EditWorkflowState × Bool :=
  (getDefaultState, true)

/-- The empty-content update message dispatched by
emitParagraphUpdateMessage, lines 1352-1373. -/
def paragraphUpdateMessage : Msg := ⟨.update, ""⟩

/-- The `paragraphEdits.map((p, i) => i === paragraphIndex ? { ...p,
approved } : p)` rebuild shared by approveParagraph and declineParagraph. -/
def setApprovedAt (v : Option Bool) (j : Nat) (edits : List ParagraphEdit) : List ParagraphEdit :=
  jsMapIdx (fun k p => if k = j then { p with approved := v } else p) edits

/-- approveParagraph, lines 1304-1325: find the first edit whose `index`
equals the argument; if none, do nothing and emit nothing; else rebuild
the list with that entry approved and emit an update message. -/
def approveParagraph (i : Int) (st : EditWorkflowState) : EditWorkflowState × List Msg :=
  match jsFindIndex (fun p => p.index == i) st.paragraphEdits with
  | none => (st, [])
  | some j =>
      ({ st with paragraphEdits := setApprovedAt (some true) j st.paragraphEdits },
        [paragraphUpdateMessage])

/-- declineParagraph, lines 1328-1349 (as approveParagraph, setting
`approved` to false). -/
def declineParagraph (i : Int) (st : EditWorkflowState) : EditWorkflowState × List Msg :=
  match jsFindIndex (fun p => p.index == i) st.paragraphEdits with
  | none => (st, [])
  | some j =>
      ({ st with paragraphEdits := setApprovedAt (some false) j st.paragraphEdits },
        [paragraphUpdateMessage])

/-- reconstructOriginalContent, lines 1403-1413: sort by index, keep the
non-blank originals, join with blank lines. -/
def reconstructOriginalContent (edits : List ParagraphEdit) : String :=
  if edits = [] then ""
  else
    let sortedEdits := List.insertionSort (fun a b : ParagraphEdit => a.index ≤ b.index) edits
    String.intercalate "\n\n" (((sortedEdits.map (·.original)).filter (fun p => jsTrim p ≠ "")))

/-- Outcome of an operation modelled up to its backend fetch:
whether the fetch was reached, the resulting workflow state, and the
messages emitted before that point. -/
structure GuardResult where
  contactedBackend : Bool
  state : EditWorkflowState
  msgs : List Msg
deriving DecidableEq

/-- The undecided-paragraphs error prompt of generateFinalArticle,
lines 1666-1670. -/
def allDecidedError : Msg :=
  ⟨.prompt, "⚠️ **Please approve or decline all paragraph edits** before generating the final article."⟩

/-- The error prompt produced when generateFinalArticle cannot obtain a
non-empty original content (throw at line 1691 caught at line 1765). -/
def emptyContentError : Msg :=
  ⟨.prompt, "⚠️ **Failed to generate final article.** Original content cannot be empty. Unable to reconstruct from paragraph edits."⟩

/-- generateFinalArticle, lines 1664-1776, modelled up to the backend
fetch at line 1694 (`contactedBackend = true` means execution reached the
fetch; the response handling beyond it depends on the backend). The source
checks `!this.allParagraphsDecided` first and returns early. -/
def generateFinalArticle (st : EditWorkflowState) : GuardResult :=
  if allParagraphsDecided st.paragraphEdits then
    let originalContent :=
      if jsTrim st.originalContent = "" then reconstructOriginalContent st.paragraphEdits
      else st.originalContent
    if jsTrim originalContent = "" then ⟨false, st, [emptyContentError]⟩
    else ⟨true, st, []⟩
  else ⟨false, st, [allDecidedError]⟩

/-- The missing-thread-id error prompt of nextEditor, lines 1419-1423. -/
def noThreadIdError : Msg :=
  ⟨.prompt, "⚠️ **No thread ID available.** Cannot proceed to next editor."⟩

/-- The undecided-paragraphs error prompt of nextEditor, lines 1429-1433. -/
def nextEditorAllDecidedError : Msg :=
  ⟨.prompt, "⚠️ **Please approve or reject all paragraph edits** before proceeding to the next editor."⟩

/-- nextEditor, lines 1416-1661, modelled up to the backend fetch at line
1460: the guard on `this.threadId` (falsy for `null` or `""`), then the
guard on `allParagraphsDecided` over the current state. -/
def nextEditorGuard (threadId : Option String) (st : EditWorkflowState) : GuardResult :=
  if jsTruthyS threadId then
    if allParagraphsDecided st.paragraphEdits then ⟨true, st, []⟩
    else ⟨false, st, [nextEditorAllDecidedError]⟩
  else ⟨false, st, [noThreadIdError]⟩

/-- beginWorkflow, lines 153-171: replace the state with the default state
at step `awaiting_editors` (and emit the editor-selection prompt). -/
def beginWorkflowState : EditWorkflowState :=
  { getDefaultState with step := .awaiting_editors }

/-- beginWorkflowWithEditors, lines 174-223: with no ids or no valid ids it
falls back to beginWorkflow; otherwise it installs the validated ids (brand
alignment ensured) at step `awaiting_content`. -/
def beginWorkflowWithEditors (editorIds : List String) : EditWorkflowState :=
  if editorIds = [] then beginWorkflowState
  else
    let validatedEditors := editorIds.filter (fun id => id ∈ validEditorIds)
    if validatedEditors = [] then beginWorkflowState
    else
      { getDefaultState with
          step := .awaiting_content,
          selectedEditors := ensureBrandAlignment validatedEditors }

/-- proceedToContentStep, lines 570-613: ensure brand alignment, bail out
on an empty selection (unreachable, since brand alignment was just
ensured), then move to `awaiting_content`. -/
def proceedToContentStep (st : EditWorkflowState) : EditWorkflowState :=
  let selectedIds := ensureBrandAlignment st.selectedEditors
  if selectedIds = [] then st
  else { st with selectedEditors := selectedIds, step := .awaiting_content }

/-- handleEditorSelection, lines 671-693: only in step `awaiting_editors`;
ensure brand alignment, store the selection and proceed to the content
step. -/
def handleEditorSelection (selectedIds : List String) (st : EditWorkflowState) : EditWorkflowState :=
  if st.step ≠ .awaiting_editors then st
  else
    let editorsWithBrand := ensureBrandAlignment selectedIds
    if editorsWithBrand = [] then st
    else proceedToContentStep { st with selectedEditors := editorsWithBrand }

/-- Result shape of parseNumericSelection, line 344. -/
structure NumericSelectionResult where
  selectedIndices : List Nat
  invalidIndices : List Nat
  hasInput : Bool
deriving DecidableEq

/-- handleNumericSelection, lines 407-458 (state effect): with invalid
indices or an empty selection it only emits an error prompt; otherwise it
stores the selected editor ids (brand alignment ensured). -/
def handleNumericSelection (result : NumericSelectionResult) (st : EditWorkflowState) : EditWorkflowState :=
  if result.invalidIndices ≠ [] then st
  else if result.selectedIndices = [] then st
  else
    let updatedEditors :=
      jsMapIdx (fun index e => { e with selected := decide ((index + 1) ∈ result.selectedIndices) })
        editorOptions
    let selectedIds := (updatedEditors.filter (·.selected)).map (·.id)
    { st with selectedEditors := ensureBrandAlignment selectedIds }

/-- handleOptOutAndProceed, lines 506-568 (state effect): brand alignment
stays selected, every other editor stays selected unless opted out; the
resulting ids (brand ensured) replace the selection. -/
def handleOptOutAndProceed (optedOut : List Nat) (st : EditWorkflowState) : EditWorkflowState :=
  let selectedEditors :=
    jsMapIdx (fun index e =>
        if e.id = "brand-alignment" then { e with selected := true }
        else { e with selected := decide ((index + 1) ∉ optedOut) })
      editorOptions
  let selectedIds := (selectedEditors.filter (·.selected)).map (·.id)
  { st with selectedEditors := ensureBrandAlignment selectedIds }

/-- processWithContent, lines 615-669 (state effect). The text obtained
from `extractFileText` followed by `normalizeContent` is the parameter
`extracted` (`none` models an extraction failure). With no usable content
the catch block emits an error and completeWorkflow resets to the default
state; otherwise the step becomes `processing` and streaming starts. -/
def processWithContent (extracted : Option String) (st : EditWorkflowState) : EditWorkflowState :=
  let contentText := st.originalContent
  if st.uploadedFile.isSome ∧ contentText = "" then
    match extracted with
    | none => getDefaultState
    | some t =>
        if jsTrim t = "" then getDefaultState
        else { st with originalContent := t, step := .processing }
  else
    if jsTrim contentText = "" then getDefaultState
    else { st with step := .processing }

/-- handleFileUpload, lines 259-270: only in step `awaiting_content`;
store the file and process. -/
def handleFileUpload (file : String) (extracted : Option String) (st : EditWorkflowState) : EditWorkflowState :=
  if st.step ≠ .awaiting_content then st
  else processWithContent extracted { st with uploadedFile := some file }

/-- syncParagraphEditsFromMessage, lines 1376-1390. -/
def syncParagraphEditsFromMessage (paragraphEdits : List ParagraphEdit) (st : EditWorkflowState) : EditWorkflowState :=
  if paragraphEdits = [] then st
  else
    let originalContent :=
      if jsTrim st.originalContent = "" then reconstructOriginalContent paragraphEdits
      else st.originalContent
    { st with
        paragraphEdits := paragraphEdits,
        originalContent := jsOrS (some originalContent) st.originalContent }

/-- Status values of the editor progress list, line 709. -/
inductive ProgressStatus where
  | pending
  | processing
  | completed
  | error
deriving DecidableEq

/-- An entry of `editorProgressList`, line 709. -/
structure EditorProgressEntry where
  editorId : String
  editorName : String
  status : ProgressStatus
  current : Nat
  total : Nat
deriving DecidableEq

/-- Model of the numeric JS fallback `a || b` for an optional number
(`undefined` and `0` are falsy). -/
def jsOrN (a : Option Nat) (b : Nat) : Nat :=
  match a with
  | some n => if n = 0 then b else n
  | none => b

/-- The editor_progress branch of processContent, lines 720-752: rewrite
every entry status relative to `data.current || 0` (1-based positions),
updating `current`/`total` on the processing entry. -/
def updateEditorProgressList (evCurrent evTotal : Option Nat) (selectedIdsLength : Nat)
    (l : List EditorProgressEntry) : List EditorProgressEntry :=
  let currentIndex := jsOrN evCurrent 0
  jsMapIdx (fun index e =>
      let editorIndex := index + 1
      if editorIndex < currentIndex then { e with status := .completed }
      else if editorIndex = currentIndex then
        { e with status := .processing, current := currentIndex,
                 total := jsOrN evTotal selectedIdsLength }
      else { e with status := .pending })
    l

/-- Whether `needle` is a prefix of `hay` (character lists). -/
def startsWithChars : List Char → List Char → Bool
  | [], _ => true
  | _ :: _, [] => false
  | c :: cs, h :: hs => c = h && startsWithChars cs hs

/-- Whether `needle` occurs somewhere in `hay`
(model of `hay.includes(needle)`). -/
def hasSubstring (hay needle : List Char) : Bool :=
  if startsWithChars needle hay then true
  else
    match hay with
    | [] => false
    | _ :: t => hasSubstring t needle

/-- Model of `a.includes(b)` on strings. -/
def strIncludes (hay needle : String) : Bool := hasSubstring hay.data needle.data

/-- Model of `s.toLowerCase()`. -/
def toLowerStr (s : String) : String := String.mk (s.data.map Char.toLower)

/-- Whether the lazy regex `^(.+?)\s*\(` can stop after `k` characters:
the first non-whitespace character at or after position `k` is `(`. -/
def matchParenAt (cs : List Char) (k : Nat) : Bool :=
  match (cs.drop k).dropWhile isJsSpace with
  | c :: _ => c = '('
  | [] => false

/-- The tag-name extraction `tag.match(/^(.+?)\s*\(/)`, lines 800-803:
the shortest non-empty prefix followed (up to whitespace) by `(` is
captured and trimmed; with no match the whole tag is used. -/
def extractEditorName (tag : String) : String :=
  let cs := tag.data
  match (List.range' 1 cs.length).find? (fun k => matchParenAt cs k) with
  | some k => jsTrim (String.mk (cs.take k))
  | none => tag

/-- The case-insensitive either-way containment test of lines 809-811. -/
def fuzzyNameMatch (existing editorName : String) : Bool :=
  strIncludes (toLowerStr existing) (toLowerStr editorName) ||
    strIncludes (toLowerStr editorName) (toLowerStr existing)

/-- The tag augmentation of lines 797-815: names are extracted from the
existing tags (the JS `Set` is an insertion-ordered deduplication), and
each editor name without a fuzzy match gains a `(Reviewed)` tag. -/
def computeTags (existingTags allEditorNames : List String) : List String :=
  let existingEditorNames := (existingTags.map extractEditorName).eraseDups
  existingTags ++
    (allEditorNames.filter
        (fun editorName => ¬ existingEditorNames.any (fun ex => fuzzyNameMatch ex editorName))).map
      (fun editorName => editorName ++ " (Reviewed)")

/-- Paragraph splitter helper: cut the character stream at each blank-line
separator. -/
def splitParasGo (acc : List Char) : List Char → List (List Char)
  | [] => [acc.reverse]
  | '\n' :: '\n' :: rest => acc.reverse :: splitParasGo [] rest
  | c :: rest => splitParasGo (c :: acc) rest

/-- Modelled from the spec: `splitIntoParagraphs` is imported from
`utils/paragraph-edit.utils.ts`, a file of this repository that is not
among the sources; per the spec it performs "naive splitting" of content
into paragraphs. Modelled as: split on blank lines, trim each piece, drop
the empty pieces. -/
def splitIntoParagraphs (s : String) : List String :=
  ((splitParasGo [] s.data).map (fun cs => String.mk (trimChars cs))).filter (fun p => p ≠ "")

/-- The raw `editorial_feedback` object of a backend paragraph edit entry
(each per-editor list may be missing, `|| []` fills it). -/
structure RawEditorialFeedback where
  development : Option (List EditorialFeedbackItem)
  content : Option (List EditorialFeedbackItem)
  copy : Option (List EditorialFeedbackItem)
  line : Option (List EditorialFeedbackItem)
  brand : Option (List EditorialFeedbackItem)
deriving DecidableEq

/-- A raw entry of a `paragraph_edits` array from the stream. -/
structure RawEdit where
  index : JsVal Int
  original : Option String
  edited : Option String
  tags : Option (List String)
  autoApproved : JsVal Bool
  approved : JsVal Bool
  editorial_feedback : Option RawEditorialFeedback
deriving DecidableEq

/-- The `(edit.index !== undefined && edit.index !== null) ? edit.index :
arrayIndex` choice (lines 817, 956, 1576). -/
def rawIndex (arrayIndex : Nat) (e : RawEdit) : Int :=
  match e.index with
  | .val n => n
  | _ => (arrayIndex : Int)

/-- The in-bounds trimmed paragraph lookup of lines 818, 959, 1577:
`originalParagraphs.length > paragraphIndex && paragraphIndex >= 0 ?
(originalParagraphs[paragraphIndex] && ...trim()) || '' : ''`. -/
def rawFromParagraphs (originalParagraphs : List String) (paragraphIndex : Int) : String :=
  if (originalParagraphs.length : Int) > paragraphIndex ∧ 0 ≤ paragraphIndex then
    let entry := originalParagraphs.getD paragraphIndex.toNat ""
    if entry = "" then "" else jsTrim entry
  else ""

/-- The `(edit.original && edit.original.trim()) || fromParagraphs`
choice. -/
def rawOriginalText (originalParagraphs : List String) (paragraphIndex : Int)
    (o : Option String) : String :=
  match o with
  | some s =>
      if jsTrim s = "" then rawFromParagraphs originalParagraphs paragraphIndex else jsTrim s
  | none => rawFromParagraphs originalParagraphs paragraphIndex

/-- The `(edit.edited && edit.edited.trim()) || ''` collapse. -/
def rawEditedText (o : Option String) : String :=
  match o with
  | some s => jsTrim s
  | none => ""

/-- The `edit.autoApproved !== undefined ? edit.autoApproved :
isIdentical` choice (a defined null stays null). -/
def rawAutoApproved (a : JsVal Bool) (isIdentical : Bool) : Option Bool :=
  match a with
  | .undef => some isIdentical
  | .null => none
  | .val b => some b

/-- The `autoApproved ? true : (edit.approved !== undefined ?
edit.approved : null)` choice (only a true autoApproved is truthy). -/
def rawApproved (autoApproved : Option Bool) (a : JsVal Bool) : Option Bool :=
  if autoApproved = some true then some true
  else
    match a with
    | .undef => none
    | .null => none
    | .val b => some b

/-- The per-entry mapping of a `paragraph_edits` array, appearing verbatim
at lines 796-843 (editor_complete), 933-991 (final_complete) and
1556-1602 (nextEditor editor_complete). `validateStringEquality` is
imported from `utils/paragraph-edit.utils.ts` (not among the sources) and
is therefore a parameter. -/
def mkParagraphEdit (validateStringEquality : String → String → Bool)
    (allEditorNames : List String) (originalParagraphs : List String)
    (arrayIndex : Nat) (e : RawEdit) : ParagraphEdit :=
  let allTags := computeTags (e.tags.getD []) allEditorNames
  let paragraphIndex := rawIndex arrayIndex e
  let originalText := rawOriginalText originalParagraphs paragraphIndex e.original
  let editedText := rawEditedText e.edited
  let isIdentical := validateStringEquality originalText editedText
  let autoApproved := rawAutoApproved e.autoApproved isIdentical
  let approved := rawApproved autoApproved e.approved
  let editorial_feedback : Option EditorialFeedback :=
    e.editorial_feedback.map (fun ef =>
      ⟨ef.development.getD [], ef.content.getD [], ef.copy.getD [],
        ef.line.getD [], ef.brand.getD []⟩)
  ⟨paragraphIndex, originalText, editedText, allTags, autoApproved, approved,
    editorial_feedback, some originalText, some editedText⟩

/-- The `data.paragraph_edits.map(...)` step shared by the three branches:
split the chosen original content into paragraphs (empty content yields no
paragraphs) and map every raw entry. -/
def mapParagraphEdits (validateStringEquality : String → String → Bool)
    (allEditorNames : List String) (originalContent : String)
    (raws : List RawEdit) : List ParagraphEdit :=
  let originalParagraphs := if originalContent = "" then [] else splitIntoParagraphs originalContent
  jsMapIdx (fun i e => mkParagraphEdit validateStringEquality allEditorNames originalParagraphs i e) raws

/-- An `editor_complete` stream event (the fields the service reads). -/
structure StreamEditorComplete where
  thread_id : Option String
  current_editor : Option String
  editor_index : Option Nat
  total_editors : Option Nat
  revised_content : Option String
  final_revised : Option String
  paragraph_edits : Option (List RawEdit)
  original_content : Option String
deriving DecidableEq

/-- A `final_complete` stream event (the fields the service reads). -/
structure StreamFinalComplete where
  combined_feedback : Option String
  final_revised : Option String
  paragraph_edits : Option (List RawEdit)
  original_content : Option String
deriving DecidableEq

/-- State effect of the editor_complete branch of processContent, lines
757-894: when a paragraph_edits array is present, store the mapped edits
and the preserved original content; afterwards, a truthy
`data.original_content` overwrites the stored original content.
`getEditorDisplayName` comes from `utils/edit-content.utils.ts` (not among
the sources) and is a parameter. -/
def applyEditorComplete (validateStringEquality : String → String → Bool)
    (getEditorDisplayName : String → String) (selectedIds : List String)
    (ev : StreamEditorComplete) (st : EditWorkflowState) : EditWorkflowState :=
  let st1 :=
    match ev.paragraph_edits with
    | some raws =>
        let allEditorNames := selectedIds.map getEditorDisplayName
        let originalContent := jsOrS ev.original_content st.originalContent
        let paragraphEdits := mapParagraphEdits validateStringEquality allEditorNames originalContent raws
        let preservedOriginalContent := jsOrS ev.original_content st.originalContent
        { st with paragraphEdits := paragraphEdits, originalContent := preservedOriginalContent }
    | none => st
  if jsTruthyS ev.original_content then
    { st1 with originalContent := ev.original_content.getD "" }
  else st1

/-- State effect of the final_complete branch of processContent, lines
919-1047: a present paragraph_edits array is mapped as in
editor_complete; otherwise, with both `final_revised` and
`original_content` truthy, the edits come from
`createParagraphEditsFromComparison` (imported from
`utils/paragraph-edit.utils.ts`, not among the sources, hence the
parameter `createParagraphEditsFromComparison`, applied through the
service wrapper of lines 1070-1077 to the display names). -/
def applyFinalComplete (validateStringEquality : String → String → Bool)
    (getEditorDisplayName : String → String)
    (createParagraphEditsFromComparison : String → String → List String → List ParagraphEdit)
    (selectedIds : List String) (ev : StreamFinalComplete)
    (st : EditWorkflowState) : EditWorkflowState :=
  let paragraphEdits :=
    match ev.paragraph_edits with
    | some raws =>
        let allEditorNames := selectedIds.map getEditorDisplayName
        let originalContent := jsOrS ev.original_content st.originalContent
        mapParagraphEdits validateStringEquality allEditorNames originalContent raws
    | none =>
        if jsTruthyS ev.final_revised ∧ jsTruthyS ev.original_content then
          createParagraphEditsFromComparison (ev.original_content.getD "")
            (ev.final_revised.getD "") (selectedIds.map getEditorDisplayName)
        else []
  let preservedOriginalContent := jsOrS ev.original_content st.originalContent
  { st with paragraphEdits := paragraphEdits, originalContent := preservedOriginalContent }

/-- State effect of the editor_complete branch inside nextEditor, lines
1532-1638: editor names come from the current state's selected editors;
a truthy `data.original_content` is stored first, then the mapped edits
replace the list (an absent paragraph_edits array clears it). -/
def applyNextEditorComplete (validateStringEquality : String → String → Bool)
    (getEditorDisplayName : String → String) (ev : StreamEditorComplete)
    (st : EditWorkflowState) : EditWorkflowState :=
  let newParagraphEdits :=
    match ev.paragraph_edits with
    | some raws =>
        let allEditorNames := st.selectedEditors.map getEditorDisplayName
        let originalContent := jsOrS ev.original_content st.originalContent
        mapParagraphEdits validateStringEquality allEditorNames originalContent raws
    | none => []
  let st1 :=
    if jsTruthyS ev.original_content then
      { st with originalContent := ev.original_content.getD "" }
    else st
  { st1 with paragraphEdits := newParagraphEdits }

/-- The selection keywords removed by parseNumericSelection, line 349, in
the alternation order of the regex
`/(?:select|choose|pick|use|want|need|editor|editors)/gi`. -/
def selectionKeywords : List (List Char) :=
  ["select", "choose", "pick", "use", "want", "need", "editor", "editors"].map String.data

/-- Case-insensitive prefix test against a lowercase needle. -/
def startsWithCI : List Char → List Char → Bool
  | [], _ => true
  | _ :: _, [] => false
  | c :: cs, h :: hs => c = Char.toLower h && startsWithCI cs hs

/-- The leftmost-alternative keyword match at the head of the input. -/
def matchKeywordAt (cs : List Char) : Option Nat :=
  (selectionKeywords.find? (fun kw => startsWithCI kw cs)).map List.length

/-- Scanner for the keyword removal: `skip` counts characters still to be
consumed by the keyword matched at an earlier position. -/
def removeKeywordsGo (skip : Nat) : List Char → List Char
  | [] => []
  | c :: cs =>
    match skip with
    | n + 1 => removeKeywordsGo n cs
    | 0 =>
      match matchKeywordAt (c :: cs) with
      | some k => removeKeywordsGo (k - 1) cs
      | none => c :: removeKeywordsGo 0 cs

/-- Global case-insensitive removal of the selection keywords (the
`input.replace(..., '')` of line 349): at each position the leftmost
alternative that matches is removed and scanning resumes after it (every
keyword is non-empty, so a match of length `k` at `c :: cs` consumes `c`
and the next `k - 1` characters). -/
def removeKeywords (l : List Char) : List Char := removeKeywordsGo 0 l

/-- Digit test of line 351 (`/\d/.test`). -/
def hasDigit (cs : List Char) : Bool := cs.any (fun c => c.isDigit)

/-- Delimiter class of the split at line 356 (`/[,;\s]+/`). -/
def isSelDelim (c : Char) : Bool := c = ',' || c = ';' || isJsSpace c

/-- Split into the maximal runs of non-delimiter characters; empty runs
are dropped, matching the `.filter(part => part.trim().length > 0)` of
line 356 (a part can contain no delimiter, so its trim is the identity). -/
def splitPartsGo (cur : List Char) : List Char → List (List Char)
  | [] => if cur = [] then [] else [cur.reverse]
  | c :: cs =>
      if isSelDelim c then
        if cur = [] then splitPartsGo [] cs else cur.reverse :: splitPartsGo [] cs
      else splitPartsGo (c :: cur) cs

/-- Decimal value of a digit run. -/
def digitsToNatGo (acc : Nat) : List Char → Nat
  | [] => acc
  | c :: cs => digitsToNatGo (acc * 10 + (c.toNat - '0'.toNat)) cs

/-- Model of `parseInt` applied to a full `^(\d+)$` match (`none` when the
input is not a non-empty digit run; arbitrary-precision naturals stand in
for JS numbers). -/
def parseDigits (cs : List Char) : Option Nat :=
  if cs ≠ [] ∧ cs.all Char.isDigit then some (digitsToNatGo 0 cs) else none

/-- Model of the range match `^(\d+)\s*-\s*(\d+)$` of line 362 (parts
carry no whitespace, so the `\s*` groups are vacuous: exactly one dash
between two digit runs). -/
def parseRangePart (cs : List Char) : Option (Nat × Nat) :=
  match cs.splitOn '-' with
  | [a, b] =>
      match parseDigits a, parseDigits b with
      | some x, some y => some (x, y)
      | _, _ => none
  | _ => none

/-- The dedup-push `if (!list.includes(n)) list.push(n)` of lines 373-379
and 389-395. -/
def pushNew (l : List Nat) (n : Nat) : List Nat := if n ∈ l then l else l ++ [n]

/-- Route one number to the selected (1..5) or invalid accumulator. -/
def classifyIndex (acc : List Nat × List Nat) (i : Nat) : List Nat × List Nat :=
  if 1 ≤ i ∧ i ≤ 5 then (pushNew acc.1 i, acc.2) else (acc.1, pushNew acc.2 i)

/-- Per-part processing of lines 358-399: an `a-b` range with `a > b`
contributes nothing; a well-formed range feeds every element of `[a..b]`
through the classifier; a standalone number is classified directly; any
other part is ignored. -/
def processPart (acc : List Nat × List Nat) (part : List Char) : List Nat × List Nat :=
  let trimmedPart := trimChars part
  if trimmedPart = [] then acc
  else
    match parseRangePart trimmedPart with
    | some (s, e) =>
        if e < s then acc
        else (List.range' s (e + 1 - s)).foldl classifyIndex acc
    | none =>
        match parseDigits trimmedPart with
        | some n => classifyIndex acc n
        | none => acc

/-- parseNumericSelection, lines 344-405. The final `.sort((a, b) => a - b)`
calls are modelled by a stable sort. -/
def parseNumericSelection (input : String) : NumericSelectionResult :=
  let cleanedInput := trimChars (removeKeywords input.data)
  if ¬ hasDigit cleanedInput then ⟨[], [], cleanedInput ≠ []⟩
  else
    let parts := splitPartsGo [] cleanedInput
    let acc := parts.foldl processPart ([], [])
    ⟨List.insertionSort (· ≤ ·) acc.1, List.insertionSort (· ≤ ·) acc.2, true⟩

/-- Scanner for the tag removal `/<[^>]*>/g` of stripHtmlSpans: while
`inTag` is set, characters are being consumed by a match that ends at the
next `>`. -/
def stripHtmlGo (inTag : Bool) : List Char → List Char
  | [] => []
  | c :: rest =>
      if inTag then
        if c = '>' then stripHtmlGo false rest else stripHtmlGo true rest
      else
        if c = '<' ∧ rest.any (fun x => x = '>') then stripHtmlGo true rest
        else c :: stripHtmlGo false rest

/-- stripHtmlSpans, lines 2995-2999: globally remove `/<[^>]*>/g`. A `<`
with a later `>` starts a match consuming up to that first `>` (even
across further `<`); a `<` with no later `>` cannot match and stays. -/
def stripHtmlChars (l : List Char) : List Char := stripHtmlGo false l

/-- One collected highlight occurrence of highlightAllFeedbacks (lines
3031-3032); `stop` models the source field `end` (a Lean keyword). -/
structure HighlightItem where
  text : List Char
  approved : Option Bool
  start : Nat
  stop : Nat
deriving DecidableEq

/-- The `fb.approved === true ? true : (fb.approved === false ? false :
null)` normalisation of lines 3051 and 3069. -/
def jsApproval : JsVal Bool → Option Bool
  | .val b => some b
  | _ => none

/-- Scanner for the successive non-overlapping matches of a literal
pattern (the semantics of `regex.exec` with the global flag on an escaped
pattern, lines 3043-3055): `skip` counts characters still consumed by the
previous match and `pos` is the current position. -/
def findOccurrencesGo (pat : List Char) (skip pos : Nat) : List Char → List Nat
  | [] => []
  | h :: t =>
    match skip with
    | n + 1 => findOccurrencesGo pat n (pos + 1) t
    | 0 =>
      if pat ≠ [] ∧ startsWithChars pat (h :: t) then
        pos :: findOccurrencesGo pat (pat.length - 1) (pos + 1) t
      else findOccurrencesGo pat 0 (pos + 1) t

/-- Start positions of the successive non-overlapping matches of the
literal pattern in the text, scanning left to right. -/
def findOccurrences (pat : List Char) (hay : List Char) (pos : Nat) : List Nat :=
  findOccurrencesGo pat 0 pos hay

/-- The key enumeration `Object.keys(editorial)` of line 3037 in the
insertion order with which the service builds the feedback record. -/
def feedbackList (ef : EditorialFeedback) : List EditorialFeedbackItem :=
  ef.development ++ ef.content ++ ef.copy ++ ef.line ++ ef.brand

/-- The item collection loop of lines 3037-3076 for one side: for each
feedback item in key order, the trimmed text selected by `get` (issue or
fix), when non-empty and present in the text, contributes one item per
occurrence. -/
def collectItems (get : EditorialFeedbackItem → Option String)
    (feedbacks : List EditorialFeedbackItem) (hay : List Char) : List HighlightItem :=
  feedbacks.foldl
    (fun acc fb =>
      match get fb with
      | none => acc
      | some s =>
          let t := trimChars s.data
          if t ≠ [] ∧ hasSubstring hay t then
            acc ++ (findOccurrences t hay 0).map
              (fun st => ⟨t, jsApproval fb.approved, st, st + t.length⟩)
          else acc)
    []

/-- Span wrapper `<span class="...">text</span>`. -/
def spanWrap (cls : String) (text : List Char) : List Char :=
  ("<span class=\"" ++ cls ++ "\">").data ++ text ++ "</span>".data

/-- Highlight wrapping for the original text, lines 3084-3093: approved is
struck out in yellow, rejected is green, undecided is yellow. -/
def wrapOriginalItem (item : HighlightItem) : List Char :=
  match item.approved with
  | some true => spanWrap "strikeout highlight-yellow" item.text
  | some false => spanWrap "highlight-green" item.text
  | none => spanWrap "highlight-yellow" item.text

/-- Highlight wrapping for the edited text, lines 3104-3113: the
complement of the original-side classes. -/
def wrapEditedItem (item : HighlightItem) : List Char :=
  match item.approved with
  | some true => spanWrap "highlight-green" item.text
  | some false => spanWrap "strikeout highlight-yellow" item.text
  | none => spanWrap "highlight-yellow" item.text

/-- The replacement loop of lines 3081-3096 / 3101-3116: for each item (in
list order) replace the range `[start, stop)` of the accumulated string by
the wrapped text (`substring(0, start)`, `substring(stop)`). -/
def applyHighlightItems (wrap : HighlightItem → List Char)
    (items : List HighlightItem) (s : List Char) : List Char :=
  items.foldl (fun acc it => acc.take it.start ++ wrap it ++ acc.drop it.stop) s

/-- The descending-by-start stable sort of lines 3079 and 3099. -/
def sortItemsDesc (items : List HighlightItem) : List HighlightItem :=
  List.insertionSort (fun a b : HighlightItem => b.start ≤ a.start) items

/-- highlightAllFeedbacks, lines 3018-3119 (the component method), for a
non-null paragraph: strip the HTML from both texts, collect issue
occurrences on the original side and fix occurrences on the edited side,
then apply the wraps from the last occurrence to the first. -/
def highlightAllFeedbacks (para : ParagraphEdit) : String × String :=
  let originalText := stripHtmlChars para.original.data
  let editedText := stripHtmlChars para.edited.data
  let feedbacks :=
    match para.editorial_feedback with
    | some ef => feedbackList ef
    | none => []
  let originalItems := collectItems (·.issue) feedbacks originalText
  let editedItems := collectItems (·.fix) feedbacks editedText
  (String.mk (applyHighlightItems wrapOriginalItem (sortItemsDesc originalItems) originalText),
    String.mk (applyHighlightItems wrapEditedItem (sortItemsDesc editedItems) editedText))

/-- Claim-side wrapping (following the wording of the specification):
working from the last occurrence back to the first, every occurrence is
replaced by its wrapped form and the rest of the text is untouched. -/
def wrapEachOccurrence (wrap : HighlightItem → List Char) :
    List HighlightItem → List Char → List Char
  | [], s => s
  | it :: rest, s =>
      wrapEachOccurrence wrap rest (s.take it.start) ++ wrap it ++ s.drop it.stop

/-- Validity of a descending item list over a text of length `limit`:
ranges lie within the text, are well-formed, and are pairwise disjoint
(each further item ends before the previous one starts). -/
def disjointDesc : List HighlightItem → Nat → Bool
  | [], _ => true
  | it :: rest, limit =>
      it.stop ≤ limit && it.start ≤ it.stop && disjointDesc rest it.start

/-- The reachable workflow states: the initial default state, closed under
every state-changing operation of the service (stream events are applied
with arbitrary backend data and arbitrary instantiations of the helper
functions that are not among the sources). -/
inductive Reachable : EditWorkflowState → Prop where
  | init : Reachable getDefaultState
  | beginW {st : EditWorkflowState} : Reachable st → Reachable beginWorkflowState
  | beginWithEditors {st : EditWorkflowState} (ids : List String) :
      Reachable st → Reachable (beginWorkflowWithEditors ids)
  | editorSelection {st : EditWorkflowState} (ids : List String) :
      Reachable st → Reachable (handleEditorSelection ids st)
  | numericSelection {st : EditWorkflowState} (res : NumericSelectionResult) :
      Reachable st → Reachable (handleNumericSelection res st)
  | optOut {st : EditWorkflowState} (nums : List Nat) :
      Reachable st → Reachable (handleOptOutAndProceed nums st)
  | proceed {st : EditWorkflowState} : Reachable st → Reachable (proceedToContentStep st)
  | fileUpload {st : EditWorkflowState} (f : String) (ext : Option String) :
      Reachable st → Reachable (handleFileUpload f ext st)
  | withContent {st : EditWorkflowState} (ext : Option String) :
      Reachable st → Reachable (processWithContent ext st)
  | editorComplete {st : EditWorkflowState} (veq : String → String → Bool)
      (gedn : String → String) (ids : List String) (ev : StreamEditorComplete) :
      Reachable st → Reachable (applyEditorComplete veq gedn ids ev st)
  | finalComplete {st : EditWorkflowState} (veq : String → String → Bool)
      (gedn : String → String)
      (cpefc : String → String → List String → List ParagraphEdit)
      (ids : List String) (ev : StreamFinalComplete) :
      Reachable st → Reachable (applyFinalComplete veq gedn cpefc ids ev st)
  | nextEdComplete {st : EditWorkflowState} (veq : String → String → Bool)
      (gedn : String → String) (ev : StreamEditorComplete) :
      Reachable st → Reachable (applyNextEditorComplete veq gedn ev st)
  | completeW {st : EditWorkflowState} : Reachable st → Reachable (completeWorkflow st).1
  | cancelW {st : EditWorkflowState} : Reachable st → Reachable (cancelWorkflow st).1
  | approveP {st : EditWorkflowState} (i : Int) :
      Reachable st → Reachable (approveParagraph i st).1
  | declineP {st : EditWorkflowState} (i : Int) :
      Reachable st → Reachable (declineParagraph i st).1
  | syncEdits {st : EditWorkflowState} (edits : List ParagraphEdit) :
      Reachable st → Reachable (syncParagraphEditsFromMessage edits st)
  | generateFinal {st : EditWorkflowState} :
      Reachable st → Reachable (generateFinalArticle st).state
  | nextEditorG {st : EditWorkflowState} (tid : Option String) :
      Reachable st → Reachable (nextEditorGuard tid st).state

theorem dropWhile_rdropWhile_dropWhile (p : Char → Bool) (l : List Char) :
    List.dropWhile p (List.rdropWhile p (List.dropWhile p l)) =
      List.rdropWhile p (List.dropWhile p l) := by
  rw [List.dropWhile_eq_self_iff]
  intro hl
  have hpre := List.rdropWhile_prefix p (List.dropWhile p l)
  have h0 : 0 < (List.dropWhile p l).length := lt_of_lt_of_le hl hpre.length_le
  have hget : (List.rdropWhile p (List.dropWhile p l))[0] = (List.dropWhile p l)[0] :=
    hpre.getElem hl
  have hself : List.dropWhile p (List.dropWhile p l) = List.dropWhile p l :=
    List.dropWhile_idempotent p l
  have hhead := List.dropWhile_eq_self_iff.mp hself h0
  rw [List.get_eq_getElem] at hhead ⊢
  simpa [hget] using hhead

theorem trimChars_eq_rdropWhile (l : List Char) :
    trimChars l = List.rdropWhile isJsSpace (List.dropWhile isJsSpace l) := rfl

theorem trimChars_idem (l : List Char) : trimChars (trimChars l) = trimChars l := by
  rw [trimChars_eq_rdropWhile, trimChars_eq_rdropWhile, dropWhile_rdropWhile_dropWhile,
    List.rdropWhile_idempotent]

theorem jsTrim_mk (cs : List Char) : jsTrim (String.mk cs) = String.mk (trimChars cs) := rfl

theorem splitIntoParagraphs_mem {s p : String} (hp : p ∈ splitIntoParagraphs s) :
    jsTrim p = p ∧ p ≠ "" := by
  unfold splitIntoParagraphs at hp
  rw [List.mem_filter] at hp
  obtain ⟨hmem, hne⟩ := hp
  rw [List.mem_map] at hmem
  obtain ⟨cs, _, rfl⟩ := hmem
  refine ⟨?_, by simpa using hne⟩
  rw [jsTrim_mk, trimChars_idem]

theorem splitIntoParagraphs_empty : splitIntoParagraphs "" = [] := by decide

theorem allParagraphsDecided_eq_false {edits : List ParagraphEdit}
    (h : ∃ p ∈ edits, p.approved = none) : allParagraphsDecided edits = false := by
  rcases h with ⟨p, hp, ha⟩
  by_contra hne
  have htrue : allParagraphsDecided edits = true := by
    cases hb : allParagraphsDecided edits
    · exact absurd hb hne
    · rfl
  rw [allParagraphsDecided, List.all_eq_true] at htrue
  have := htrue p hp
  rw [ha] at this
  simp at this

/-- Claim C10: cancelWorkflow is a no-op when the current step is idle or
processing (the state is unchanged, no workflowCompleted event fires, and
no message is emitted); in every other step it resets the state to the
default state, fires workflowCompleted, and emits the cancellation prompt
message. -/
theorem cancelWorkflow_spec (st : EditWorkflowState) :
    ((st.step = .idle ∨ st.step = .processing) → cancelWorkflow st = (st, [], false)) ∧
    (st.step ≠ .idle → st.step ≠ .processing →
      cancelWorkflow st = (getDefaultState, [cancelMessage], true) ∧
        cancelMessage.mtype = .prompt) := by
  constructor
  · rintro (h | h) <;> simp [cancelWorkflow, h]
  · intro h1 h2
    exact ⟨by simp [cancelWorkflow, h1, h2], rfl⟩

/-- Witness for C10 at the processing and awaiting_approval steps. -/
theorem cancelWorkflow_spec_witness :
    cancelWorkflow ⟨.processing, none, ["brand-alignment"], "", []⟩ =
      (⟨.processing, none, ["brand-alignment"], "", []⟩, [], false) ∧
    cancelWorkflow ⟨.awaiting_approval, none, ["brand-alignment"], "", []⟩ =
      (getDefaultState, [cancelMessage], true) :=
  ⟨(cancelWorkflow_spec ⟨.processing, none, ["brand-alignment"], "", []⟩).1 (Or.inr rfl),
    ((cancelWorkflow_spec ⟨.awaiting_approval, none, ["brand-alignment"], "", []⟩).2
      (by decide) (by decide)).1⟩

/-- Claim C2: when some paragraph edit in the current state has a null
`approved` (allParagraphsDecided is false), generateFinalArticle and
nextEditor each emit one error prompt message, do not contact the backend,
and leave the workflow state unchanged. -/
theorem undecided_blocks_generation (st : EditWorkflowState) (threadId : Option String)
    (h : ∃ p ∈ st.paragraphEdits, p.approved = none) :
    generateFinalArticle st = ⟨false, st, [allDecidedError]⟩ ∧
    allDecidedError.mtype = .prompt ∧
    (nextEditorGuard threadId st).contactedBackend = false ∧
    (nextEditorGuard threadId st).state = st ∧
    (nextEditorGuard threadId st).msgs.length = 1 ∧
    ∀ m ∈ (nextEditorGuard threadId st).msgs, m.mtype = .prompt := by
  have hfalse := allParagraphsDecided_eq_false h
  refine ⟨by simp [generateFinalArticle, hfalse], rfl, ?_, ?_, ?_, ?_⟩ <;>
    cases hjt : jsTruthyS threadId <;>
      simp [nextEditorGuard, hjt, hfalse, noThreadIdError, nextEditorAllDecidedError]

/-- Witness for C2 with one undecided paragraph edit and no thread id. -/
theorem undecided_blocks_generation_witness :
    generateFinalArticle
        ⟨.awaiting_approval, none, ["brand-alignment"], "orig",
          [⟨0, "a", "b", [], some false, none, none, none, none⟩]⟩ =
      ⟨false,
        ⟨.awaiting_approval, none, ["brand-alignment"], "orig",
          [⟨0, "a", "b", [], some false, none, none, none, none⟩]⟩,
        [allDecidedError]⟩ :=
  (undecided_blocks_generation
      ⟨.awaiting_approval, none, ["brand-alignment"], "orig",
        [⟨0, "a", "b", [], some false, none, none, none, none⟩]⟩ none
      ⟨⟨0, "a", "b", [], some false, none, none, none, none⟩, by simp, rfl⟩).1

theorem jsMapIdxGo_getElem? {α β : Type} (f : Nat → α → β) (k : Nat) (l : List α) (i : Nat) :
    (jsMapIdxGo f k l)[i]? = (l[i]?).map (f (k + i)) := by
  induction l generalizing k i with
  | nil => simp [jsMapIdxGo]
  | cons a as ih =>
      cases i with
      | zero => simp [jsMapIdxGo]
      | succ n =>
          have := ih (k + 1) n
          simp only [jsMapIdxGo, List.getElem?_cons_succ]
          rw [this]
          ring_nf

theorem jsMapIdx_getElem? {α β : Type} (f : Nat → α → β) (l : List α) (i : Nat) :
    (jsMapIdx f l)[i]? = (l[i]?).map (f i) := by
  simpa using jsMapIdxGo_getElem? f 0 l i

theorem jsFindIndex_eq_none {α : Type} {f : α → Bool} {l : List α}
    (h : ∀ a ∈ l, f a = false) : jsFindIndex f l = none := by
  induction l with
  | nil => rfl
  | cons a as ih =>
      simp [jsFindIndex, h a (by simp), ih (fun x hx => h x (by simp [hx]))]

theorem jsFindIndex_eq_some_of_unique {α : Type} (f : α → Bool) (l : List α) (j : Nat) (p : α)
    (hj : l[j]? = some p) (hf : f p = true)
    (huni : ∀ k q, l[k]? = some q → f q = true → k = j) :
    jsFindIndex f l = some j := by
  induction l generalizing j with
  | nil => simp at hj
  | cons a as ih =>
      cases j with
      | zero =>
          simp at hj
          subst hj
          simp [jsFindIndex, hf]
      | succ n =>
          have hfa : f a = false := by
            cases hfb : f a
            · rfl
            · exact absurd (huni 0 a (by simp) hfb) (by simp)
          have ihn := ih n (by simpa using hj) (fun k q hk hq => by
            have := huni (k + 1) q (by simpa using hk) hq
            omega)
          simp [jsFindIndex, hfa, ihn]

/-- Claim C9: approveParagraph (resp. declineParagraph) with argument i
changes only the approved field of the paragraph edit whose index equals
i, setting it to true (resp. false); every other field of that paragraph,
every other paragraph edit, and every other state field are unchanged; and
when no paragraph edit has index i the entire state is unchanged and no
update message is emitted. (The uniqueness of the edit with index i is the
claim's presupposition "the paragraph edit whose index equals i".) -/
theorem approve_decline_paragraph_frame (i : Int) (st : EditWorkflowState) :
    ((∀ p ∈ st.paragraphEdits, p.index ≠ i) →
      approveParagraph i st = (st, []) ∧ declineParagraph i st = (st, [])) ∧
    (∀ (j : Nat) (p : ParagraphEdit), st.paragraphEdits[j]? = some p → p.index = i →
      (∀ (k : Nat) (q : ParagraphEdit), st.paragraphEdits[k]? = some q → q.index = i → k = j) →
      ((approveParagraph i st).1.step = st.step ∧
        (approveParagraph i st).1.uploadedFile = st.uploadedFile ∧
        (approveParagraph i st).1.selectedEditors = st.selectedEditors ∧
        (approveParagraph i st).1.originalContent = st.originalContent ∧
        (approveParagraph i st).1.paragraphEdits[j]? = some { p with approved := some true } ∧
        (∀ k, k ≠ j → (approveParagraph i st).1.paragraphEdits[k]? = st.paragraphEdits[k]?) ∧
        (approveParagraph i st).2 = [paragraphUpdateMessage]) ∧
      ((declineParagraph i st).1.step = st.step ∧
        (declineParagraph i st).1.uploadedFile = st.uploadedFile ∧
        (declineParagraph i st).1.selectedEditors = st.selectedEditors ∧
        (declineParagraph i st).1.originalContent = st.originalContent ∧
        (declineParagraph i st).1.paragraphEdits[j]? = some { p with approved := some false } ∧
        (∀ k, k ≠ j → (declineParagraph i st).1.paragraphEdits[k]? = st.paragraphEdits[k]?) ∧
        (declineParagraph i st).2 = [paragraphUpdateMessage])) := by
  constructor
  · intro hall
    have hnone : jsFindIndex (fun p => p.index == i) st.paragraphEdits = none :=
      jsFindIndex_eq_none (fun a ha => by simp [hall a ha])
    constructor <;> simp [approveParagraph, declineParagraph, hnone]
  · intro j p hj hpi huni
    have hsome : jsFindIndex (fun p => p.index == i) st.paragraphEdits = some j :=
      jsFindIndex_eq_some_of_unique _ _ j p hj (by simp [hpi])
        (fun k q hk hq => huni k q hk (by simpa using hq))
    constructor
    · refine ⟨by simp [approveParagraph, hsome], by simp [approveParagraph, hsome],
        by simp [approveParagraph, hsome], by simp [approveParagraph, hsome], ?_, ?_, ?_⟩
      · simp [approveParagraph, hsome, setApprovedAt, jsMapIdx_getElem?, hj]
      · intro k hk
        simp only [approveParagraph, hsome, setApprovedAt, jsMapIdx_getElem?]
        cases st.paragraphEdits[k]? <;> simp [hk]
      · simp [approveParagraph, hsome]
    · refine ⟨by simp [declineParagraph, hsome], by simp [declineParagraph, hsome],
        by simp [declineParagraph, hsome], by simp [declineParagraph, hsome], ?_, ?_, ?_⟩
      · simp [declineParagraph, hsome, setApprovedAt, jsMapIdx_getElem?, hj]
      · intro k hk
        simp only [declineParagraph, hsome, setApprovedAt, jsMapIdx_getElem?]
        cases st.paragraphEdits[k]? <;> simp [hk]
      · simp [declineParagraph, hsome]

/-- Witness for C9: a two-edit state where the edit with index 1 (at
position 1) is approved, the other edit and the other fields untouched. -/
theorem approve_decline_paragraph_frame_witness :
    ((approveParagraph 1
        ⟨.awaiting_approval, none, ["brand-alignment"], "c",
          [⟨0, "a", "b", [], some false, some true, none, none, none⟩,
            ⟨1, "x", "y", [], some false, none, none, none, none⟩]⟩).1.paragraphEdits[1]? =
      some ⟨1, "x", "y", [], some false, some true, none, none, none⟩) ∧
    ((approveParagraph 1
        ⟨.awaiting_approval, none, ["brand-alignment"], "c",
          [⟨0, "a", "b", [], some false, some true, none, none, none⟩,
            ⟨1, "x", "y", [], some false, none, none, none, none⟩]⟩).1.paragraphEdits[0]? =
      some ⟨0, "a", "b", [], some false, some true, none, none, none⟩) ∧
    approveParagraph 2
        ⟨.awaiting_approval, none, ["brand-alignment"], "c",
          [⟨0, "a", "b", [], some false, some true, none, none, none⟩]⟩ =
      (⟨.awaiting_approval, none, ["brand-alignment"], "c",
          [⟨0, "a", "b", [], some false, some true, none, none, none⟩]⟩, []) := by
  refine ⟨?_, ?_, ?_⟩
  · exact (((approve_decline_paragraph_frame 1 _).2 1
      ⟨1, "x", "y", [], some false, none, none, none, none⟩ (by decide) (by decide)
      (by
        intro k q hk hq
        cases k with
        | zero =>
            simp only [List.getElem?_cons_zero, Option.some.injEq] at hk
            rw [← hk] at hq
            exact absurd hq (by decide)
        | succ n =>
            cases n with
            | zero => rfl
            | succ m => simp at hk)).1).2.2.2.2.1
  · exact ((((approve_decline_paragraph_frame 1 _).2 1
      ⟨1, "x", "y", [], some false, none, none, none, none⟩ (by decide) (by decide)
      (by
        intro k q hk hq
        cases k with
        | zero =>
            simp only [List.getElem?_cons_zero, Option.some.injEq] at hk
            rw [← hk] at hq
            exact absurd hq (by decide)
        | succ n =>
            cases n with
            | zero => rfl
            | succ m => simp at hk)).1).2.2.2.2.2.1 0 (by decide))
  · exact ((approve_decline_paragraph_frame 2 _).1 (by decide)).1

/-- Claim C7: after an editor_progress event with current value c, every
editor at 1-based position below c is completed, the editor at position c
is processing, and every editor at a larger position is pending. -/
theorem editor_progress_statuses (evCurrent evTotal : Option Nat) (len : Nat)
    (l : List EditorProgressEntry) (idx : Nat) :
    ((updateEditorProgressList evCurrent evTotal len l)[idx]?).map (·.status) =
      (l[idx]?).map (fun _ =>
        if idx + 1 < jsOrN evCurrent 0 then ProgressStatus.completed
        else if idx + 1 = jsOrN evCurrent 0 then ProgressStatus.processing
        else ProgressStatus.pending) := by
  cases h : l[idx]? with
  | none => simp [updateEditorProgressList, jsMapIdx_getElem?, h]
  | some e =>
      simp only [updateEditorProgressList, jsMapIdx_getElem?, h, Option.map_some]
      split_ifs <;> rfl

theorem brand_mem_ensureBrandAlignment (ids : List String) :
    "brand-alignment" ∈ ensureBrandAlignment ids := by
  unfold ensureBrandAlignment
  split_ifs with h
  · exact h
  · simp

theorem ensureBrandAlignment_ne_nil (ids : List String) : ensureBrandAlignment ids ≠ [] :=
  List.ne_nil_of_mem (brand_mem_ensureBrandAlignment ids)

theorem proceedToContentStep_brand (s : EditWorkflowState) :
    "brand-alignment" ∈ (proceedToContentStep s).selectedEditors := by
  unfold proceedToContentStep
  dsimp only
  split_ifs with h
  · exact absurd h (ensureBrandAlignment_ne_nil _)
  · exact brand_mem_ensureBrandAlignment _

theorem processWithContent_selectedEditors (ext : Option String) (s : EditWorkflowState) :
    (processWithContent ext s).selectedEditors = s.selectedEditors ∨
      processWithContent ext s = getDefaultState := by
  unfold processWithContent
  dsimp only
  split_ifs with h1 h2
  · cases ext with
    | none => exact Or.inr rfl
    | some t =>
        dsimp only
        split_ifs with h3
        · exact Or.inr rfl
        · exact Or.inl rfl
  · exact Or.inr rfl
  · exact Or.inl rfl

theorem applyEditorComplete_selectedEditors (veq : String → String → Bool)
    (gedn : String → String) (ids : List String) (ev : StreamEditorComplete)
    (st : EditWorkflowState) :
    (applyEditorComplete veq gedn ids ev st).selectedEditors = st.selectedEditors := by
  unfold applyEditorComplete
  cases ev.paragraph_edits <;> dsimp only <;> split_ifs <;> rfl

theorem applyFinalComplete_selectedEditors (veq : String → String → Bool)
    (gedn : String → String)
    (cpefc : String → String → List String → List ParagraphEdit)
    (ids : List String) (ev : StreamFinalComplete) (st : EditWorkflowState) :
    (applyFinalComplete veq gedn cpefc ids ev st).selectedEditors = st.selectedEditors := rfl

theorem applyNextEditorComplete_selectedEditors (veq : String → String → Bool)
    (gedn : String → String) (ev : StreamEditorComplete) (st : EditWorkflowState) :
    (applyNextEditorComplete veq gedn ev st).selectedEditors = st.selectedEditors := by
  unfold applyNextEditorComplete
  dsimp only
  split_ifs <;> rfl

theorem generateFinalArticle_state (st : EditWorkflowState) :
    (generateFinalArticle st).state = st := by
  unfold generateFinalArticle
  dsimp only
  split_ifs <;> rfl

theorem nextEditorGuard_state (tid : Option String) (st : EditWorkflowState) :
    (nextEditorGuard tid st).state = st := by
  unfold nextEditorGuard
  split_ifs <;> rfl

/-- Claim C8: every reachable workflow state keeps 'brand-alignment' in
its selectedEditors list — the default state includes it and every
operation that replaces the list re-ensures it. -/
theorem brand_always_selected (st : EditWorkflowState) (h : Reachable st) :
    "brand-alignment" ∈ st.selectedEditors := by
  induction h with
  | init => simp [getDefaultState]
  | beginW _ _ => simp [beginWorkflowState, getDefaultState]
  | beginWithEditors ids _ _ =>
      unfold beginWorkflowWithEditors
      dsimp only
      split_ifs with h1 h2
      · simp [beginWorkflowState, getDefaultState]
      · simp [beginWorkflowState, getDefaultState]
      · exact brand_mem_ensureBrandAlignment _
  | editorSelection ids _ ih =>
      unfold handleEditorSelection
      dsimp only
      split_ifs with h1 h2
      · exact ih
      · exact absurd h2 (ensureBrandAlignment_ne_nil _)
      · exact proceedToContentStep_brand _
  | numericSelection res _ ih =>
      unfold handleNumericSelection
      dsimp only
      split_ifs with h1 h2
      · exact ih
      · exact ih
      · exact brand_mem_ensureBrandAlignment _
  | optOut nums _ ih => exact brand_mem_ensureBrandAlignment _
  | proceed _ _ => exact proceedToContentStep_brand _
  | fileUpload f ext _ ih =>
      unfold handleFileUpload
      split_ifs with h1
      · exact ih
      · rcases processWithContent_selectedEditors ext _ with heq | heq
        · rw [heq]; exact ih
        · rw [heq]; simp [getDefaultState]
  | withContent ext _ ih =>
      rcases processWithContent_selectedEditors ext _ with heq | heq
      · rw [heq]; exact ih
      · rw [heq]; simp [getDefaultState]
  | editorComplete veq gedn ids ev _ ih =>
      rw [applyEditorComplete_selectedEditors]; exact ih
  | finalComplete veq gedn cpefc ids ev _ ih =>
      rw [applyFinalComplete_selectedEditors]; exact ih
  | nextEdComplete veq gedn ev _ ih =>
      rw [applyNextEditorComplete_selectedEditors]; exact ih
  | completeW _ _ => simp [completeWorkflow, getDefaultState]
  | cancelW _ ih =>
      unfold cancelWorkflow
      split_ifs <;> first
        | exact ih
        | simp [getDefaultState]
  | @approveP s i _ ih =>
      cases hf : jsFindIndex (fun p => p.index == i) s.paragraphEdits <;>
        simp [approveParagraph, hf] <;> exact ih
  | @declineP s i _ ih =>
      cases hf : jsFindIndex (fun p => p.index == i) s.paragraphEdits <;>
        simp [declineParagraph, hf] <;> exact ih
  | syncEdits edits _ ih =>
      unfold syncParagraphEditsFromMessage
      split_ifs <;> exact ih
  | generateFinal _ ih => rw [generateFinalArticle_state]; exact ih
  | nextEditorG tid _ ih => rw [nextEditorGuard_state]; exact ih

/-- Witness for C8: a state reached by starting a workflow with a detected
editor keeps brand-alignment selected. -/
theorem brand_always_selected_witness :
    "brand-alignment" ∈ (beginWorkflowWithEditors ["copy"]).selectedEditors :=
  brand_always_selected _ (Reachable.beginWithEditors ["copy"] Reachable.init)

/-- Claim C3 (amended): the step always lies in the five workflow values
and moves as enumerated — beginWorkflow to awaiting_editors;
beginWorkflowWithEditors with a valid id to awaiting_content;
proceedToContentStep to awaiting_content; processWithContent to processing
when it has non-empty content and otherwise (no usable or extractable
content) back to the default idle state via completeWorkflow;
completeWorkflow to idle; cancelWorkflow to idle except from idle or
processing, where it leaves the state unchanged; handleFileUpload and
handleEditorSelection are no-ops outside awaiting_content /
awaiting_editors respectively. -/
theorem step_transitions :
    (∀ s : EditWorkflowStep, s = .idle ∨ s = .awaiting_editors ∨ s = .awaiting_content ∨
      s = .processing ∨ s = .awaiting_approval) ∧
    beginWorkflowState.step = .awaiting_editors ∧
    (∀ ids : List String, (∃ id ∈ ids, id ∈ validEditorIds) →
      (beginWorkflowWithEditors ids).step = .awaiting_content) ∧
    (∀ st : EditWorkflowState, (proceedToContentStep st).step = .awaiting_content) ∧
    (∀ (ext : Option String) (st : EditWorkflowState),
      (processWithContent ext st).step = .processing ∨
        processWithContent ext st = getDefaultState) ∧
    (∀ (ext : Option String) (st : EditWorkflowState), jsTrim st.originalContent ≠ "" →
      (processWithContent ext st).step = .processing) ∧
    (∀ st : EditWorkflowState, (completeWorkflow st).1.step = .idle) ∧
    (∀ st : EditWorkflowState, (st.step = .idle ∨ st.step = .processing) →
      (cancelWorkflow st).1 = st) ∧
    (∀ st : EditWorkflowState, st.step ≠ .idle → st.step ≠ .processing →
      (cancelWorkflow st).1.step = .idle) ∧
    (∀ (f : String) (ext : Option String) (st : EditWorkflowState),
      st.step ≠ .awaiting_content → handleFileUpload f ext st = st) ∧
    (∀ (ids : List String) (st : EditWorkflowState), st.step ≠ .awaiting_editors →
      handleEditorSelection ids st = st) := by
  refine ⟨?_, rfl, ?_, ?_, ?_, ?_, fun _ => rfl, ?_, ?_, ?_, ?_⟩
  · intro s; cases s <;> simp
  · rintro ids ⟨id, hmem, hvalid⟩
    have hne : ids ≠ [] := List.ne_nil_of_mem hmem
    have hval : ids.filter (fun id => decide (id ∈ validEditorIds)) ≠ [] :=
      List.ne_nil_of_mem (List.mem_filter.mpr ⟨hmem, by simpa using hvalid⟩)
    unfold beginWorkflowWithEditors
    dsimp only
    rw [if_neg hne, if_neg hval]
  · intro st
    unfold proceedToContentStep
    dsimp only
    rw [if_neg (ensureBrandAlignment_ne_nil _)]
  · intro ext st
    unfold processWithContent
    dsimp only
    split_ifs with h1 h2
    · cases ext with
      | none => exact Or.inr rfl
      | some t =>
          dsimp only
          split_ifs with h3
          · exact Or.inr rfl
          · exact Or.inl rfl
    · exact Or.inr rfl
    · exact Or.inl rfl
  · intro ext st hne
    have hcontent : st.originalContent ≠ "" := by
      intro hc
      rw [hc] at hne
      exact hne rfl
    unfold processWithContent
    dsimp only
    rw [if_neg (by simp [hcontent]), if_neg hne]
  · rintro st (h | h) <;> simp [cancelWorkflow, h]
  · intro st h1 h2
    simp [cancelWorkflow, h1, h2, getDefaultState]
  · intro f ext st h
    simp [handleFileUpload, h]
  · intro ids st h
    simp [handleEditorSelection, h]

/-- Claim C3 counterexample: from the processing step, cancelWorkflow
leaves the step at processing instead of returning it to idle; and
processWithContent with no stored content and an empty extraction result
resets the state to the idle default instead of setting it to
processing. -/
theorem step_transitions_counterexample :
    (cancelWorkflow ⟨.processing, none, ["brand-alignment"], "", []⟩).1.step = .processing ∧
    EditWorkflowStep.processing ≠ .idle ∧
    processWithContent (some "") ⟨.awaiting_content, some "f", ["brand-alignment"], "", []⟩ =
      getDefaultState ∧
    getDefaultState.step = .idle := by decide

/-- Witness for C3 at concrete inputs for each guarded clause. -/
theorem step_transitions_witness :
    (beginWorkflowWithEditors ["copy"]).step = .awaiting_content ∧
    (processWithContent none ⟨.awaiting_content, none, ["brand-alignment"], "doc", []⟩).step =
      .processing ∧
    (cancelWorkflow getDefaultState).1 = getDefaultState ∧
    (cancelWorkflow ⟨.awaiting_editors, none, ["brand-alignment"], "", []⟩).1.step = .idle ∧
    handleFileUpload "f" none getDefaultState = getDefaultState ∧
    handleEditorSelection [] getDefaultState = getDefaultState := by
  obtain ⟨_, _, h3, _, _, h6, _, h8, h9, h10, h11⟩ := step_transitions
  exact ⟨h3 ["copy"] ⟨"copy", by decide, by decide⟩,
    h6 none ⟨.awaiting_content, none, ["brand-alignment"], "doc", []⟩ (by decide),
    h8 getDefaultState (Or.inl rfl),
    h9 ⟨.awaiting_editors, none, ["brand-alignment"], "", []⟩ (by decide) (by decide),
    h10 "f" none getDefaultState (by decide),
    h11 [] getDefaultState (by decide)⟩

/-- Claim C6: a final_complete event with no paragraph_edits array but
truthy final_revised and original_content stores exactly the result of
createParagraphEditsFromComparison applied to the event's original
content, its revised content, and the display names of the selected
editors. -/
theorem final_complete_comparison_fallback (veq : String → String → Bool)
    (gedn : String → String)
    (cpefc : String → String → List String → List ParagraphEdit)
    (selectedIds : List String) (ev : StreamFinalComplete) (st : EditWorkflowState)
    (fr oc : String)
    (h1 : ev.paragraph_edits = none) (h2 : ev.final_revised = some fr) (h3 : fr ≠ "")
    (h4 : ev.original_content = some oc) (h5 : oc ≠ "") :
    (applyFinalComplete veq gedn cpefc selectedIds ev st).paragraphEdits =
      cpefc oc fr (selectedIds.map gedn) := by
  unfold applyFinalComplete
  simp [h1, h2, h4, jsTruthyS, h3, h5]

/-- Witness for C6 with a concrete comparison function. -/
theorem final_complete_comparison_fallback_witness :
    (applyFinalComplete (fun a b => a == b) id
        (fun o e names => [⟨0, o, e, names, some false, none, none, none, none⟩])
        ["brand-alignment"] ⟨none, some "revised", none, some "orig"⟩
        getDefaultState).paragraphEdits =
      [⟨0, "orig", "revised", ["brand-alignment"], some false, none, none, none, none⟩] :=
  final_complete_comparison_fallback (fun a b => a == b) id
    (fun o e names => [⟨0, o, e, names, some false, none, none, none, none⟩])
    ["brand-alignment"] ⟨none, some "revised", none, some "orig"⟩ getDefaultState
    "revised" "orig" rfl rfl (by decide) rfl (by decide)

theorem rawFromParagraphs_split (originalContent : String) (pIdx : Int) :
    rawFromParagraphs (if originalContent = "" then [] else splitIntoParagraphs originalContent)
        pIdx =
      if 0 ≤ pIdx then (splitIntoParagraphs originalContent).getD pIdx.toNat "" else "" := by
  by_cases hoc : originalContent = ""
  · rw [if_pos hoc, hoc, splitIntoParagraphs_empty]
    unfold rawFromParagraphs
    rw [if_neg (by intro h; simp at h; omega)]
    rw [List.getD_nil]
    split_ifs <;> rfl
  · rw [if_neg hoc]
    unfold rawFromParagraphs
    by_cases hge : 0 ≤ pIdx
    · by_cases hlt : pIdx < ((splitIntoParagraphs originalContent).length : Int)
      · have hn : pIdx.toNat < (splitIntoParagraphs originalContent).length :=
          (Int.toNat_lt hge).mpr hlt
        have hmem : (splitIntoParagraphs originalContent).getD pIdx.toNat "" ∈
            splitIntoParagraphs originalContent := by
          rw [List.getD_eq_getElem _ _ hn]
          exact List.getElem_mem hn
        obtain ⟨htrim, hne⟩ := splitIntoParagraphs_mem hmem
        rw [if_pos ⟨by omega, hge⟩]
        dsimp only
        rw [if_neg hne, htrim, if_pos hge]
      · rw [if_neg (fun h => hlt h.1), if_pos hge, List.getD_eq_default]
        omega
    · rw [if_neg (fun h => hge h.2), if_neg hge]

/-- Claim C1: for a paragraph_edits entry at array position i (the same
mapper runs in the editor_complete, final_complete and nextEditor
editor_complete branches), the produced ParagraphEdit has: index the
entry's index when defined and non-null, else i; original the trimmed
entry original when non-empty, else the paragraph at that index of
splitIntoParagraphs applied to the chosen original content; autoApproved
the entry's autoApproved when defined, else whether original and edited
are equal under validateStringEquality; approved true when autoApproved
holds, else the entry's approved when defined, else null. -/
theorem paragraph_edit_reducer (validateStringEquality : String → String → Bool)
    (allEditorNames : List String) (originalContent : String) (raws : List RawEdit)
    (i : Nat) (e : RawEdit) (he : raws[i]? = some e) :
    ((mapParagraphEdits validateStringEquality allEditorNames originalContent raws)[i]?).map
        (fun pe => (pe.index, pe.original, pe.autoApproved, pe.approved)) =
      some
        (let paragraphIndex : Int :=
          match e.index with
          | .val n => n
          | _ => (i : Int)
         let fallback : String :=
          if 0 ≤ paragraphIndex then
            (splitIntoParagraphs originalContent).getD paragraphIndex.toNat ""
          else ""
         let original : String :=
          match e.original with
          | some s => if jsTrim s = "" then fallback else jsTrim s
          | none => fallback
         let autoApproved : Option Bool :=
          match e.autoApproved with
          | .undef => some (validateStringEquality original (rawEditedText e.edited))
          | .null => none
          | .val b => some b
         let approved : Option Bool :=
          if autoApproved = some true then some true
          else
            match e.approved with
            | .undef => none
            | .null => none
            | .val b => some b
         (paragraphIndex, original, autoApproved, approved)) := by
  have horig : rawOriginalText
      (if originalContent = "" then [] else splitIntoParagraphs originalContent)
      (rawIndex i e) e.original =
      (match e.original with
        | some s =>
            if jsTrim s = "" then
              (if 0 ≤ rawIndex i e then
                (splitIntoParagraphs originalContent).getD (rawIndex i e).toNat ""
              else "")
            else jsTrim s
        | none =>
            if 0 ≤ rawIndex i e then
              (splitIntoParagraphs originalContent).getD (rawIndex i e).toNat ""
            else "") := by
    unfold rawOriginalText
    cases e.original with
    | none => exact rawFromParagraphs_split originalContent (rawIndex i e)
    | some s =>
        dsimp only
        rw [rawFromParagraphs_split originalContent (rawIndex i e)]
  unfold mapParagraphEdits
  rw [jsMapIdx_getElem?, he]
  simp only [Option.map_some']
  unfold mkParagraphEdit
  dsimp only
  rw [horig]
  rfl

/-- Witness for C1: an entry with no index, no original and edited "E",
against the two-paragraph content; the fallback paragraph is used, the
texts differ under the equality check, approval stays null. -/
theorem paragraph_edit_reducer_witness :
    ((mapParagraphEdits (fun a b => a == b) ["Copy Editor"] "P1\n\nP2"
        [⟨.undef, none, some "E", none, .undef, .undef, none⟩])[0]?).map
        (fun pe => (pe.index, pe.original, pe.autoApproved, pe.approved)) =
      some ((0 : Int), "P1", some false, none) := by
  have h := paragraph_edit_reducer (fun a b => a == b) ["Copy Editor"] "P1\n\nP2"
    [⟨.undef, none, some "E", none, .undef, .undef, none⟩] 0
    ⟨.undef, none, some "E", none, .undef, .undef, none⟩ rfl
  rw [h]
  decide

theorem mem_pushNew {l : List Nat} {n m : Nat} : m ∈ pushNew l n ↔ m ∈ l ∨ m = n := by
  unfold pushNew
  split_ifs with h
  · constructor
    · exact Or.inl
    · rintro (h1 | rfl)
      · exact h1
      · exact h
  · simp

theorem nodup_pushNew {l : List Nat} {n : Nat} (h : l.Nodup) : (pushNew l n).Nodup := by
  unfold pushNew
  split_ifs with hmem
  · exact h
  · simp [List.nodup_append, h, hmem]

theorem mem_classifyIndex_fst {acc : List Nat × List Nat} {i m : Nat} :
    m ∈ (classifyIndex acc i).1 ↔ m ∈ acc.1 ∨ (m = i ∧ 1 ≤ i ∧ i ≤ 5) := by
  unfold classifyIndex
  split_ifs with h
  · rw [mem_pushNew]
    tauto
  · tauto

theorem mem_classifyIndex_snd {acc : List Nat × List Nat} {i m : Nat} :
    m ∈ (classifyIndex acc i).2 ↔ m ∈ acc.2 ∨ (m = i ∧ ¬(1 ≤ i ∧ i ≤ 5)) := by
  unfold classifyIndex
  split_ifs with h
  · tauto
  · rw [mem_pushNew]
    tauto

theorem nodup_classifyIndex {acc : List Nat × List Nat} {i : Nat}
    (h1 : acc.1.Nodup) (h2 : acc.2.Nodup) :
    (classifyIndex acc i).1.Nodup ∧ (classifyIndex acc i).2.Nodup := by
  unfold classifyIndex
  split_ifs with h
  · exact ⟨nodup_pushNew h1, h2⟩
  · exact ⟨h1, nodup_pushNew h2⟩

theorem mem_foldl_classify_fst {L : List Nat} {acc : List Nat × List Nat} {m : Nat} :
    m ∈ (L.foldl classifyIndex acc).1 ↔ m ∈ acc.1 ∨ (m ∈ L ∧ 1 ≤ m ∧ m ≤ 5) := by
  induction L generalizing acc with
  | nil => simp
  | cons a t ih =>
      rw [List.foldl_cons, ih, mem_classifyIndex_fst]
      constructor
      · rintro ((h | ⟨rfl, hb⟩) | ⟨ht, hb⟩)
        · exact Or.inl h
        · exact Or.inr ⟨by simp, hb⟩
        · exact Or.inr ⟨by simp [ht], hb⟩
      · rintro (h | ⟨hmem, hb⟩)
        · exact Or.inl (Or.inl h)
        · rcases List.mem_cons.mp hmem with rfl | ht
          · exact Or.inl (Or.inr ⟨rfl, hb⟩)
          · exact Or.inr ⟨ht, hb⟩

theorem mem_foldl_classify_snd {L : List Nat} {acc : List Nat × List Nat} {m : Nat} :
    m ∈ (L.foldl classifyIndex acc).2 ↔ m ∈ acc.2 ∨ (m ∈ L ∧ ¬(1 ≤ m ∧ m ≤ 5)) := by
  induction L generalizing acc with
  | nil => simp
  | cons a t ih =>
      rw [List.foldl_cons, ih, mem_classifyIndex_snd]
      constructor
      · rintro ((h | ⟨rfl, hb⟩) | ⟨ht, hb⟩)
        · exact Or.inl h
        · exact Or.inr ⟨by simp, hb⟩
        · exact Or.inr ⟨by simp [ht], hb⟩
      · rintro (h | ⟨hmem, hb⟩)
        · exact Or.inl (Or.inl h)
        · rcases List.mem_cons.mp hmem with rfl | ht
          · exact Or.inl (Or.inr ⟨rfl, hb⟩)
          · exact Or.inr ⟨ht, hb⟩

theorem nodup_foldl_classify {L : List Nat} {acc : List Nat × List Nat}
    (h1 : acc.1.Nodup) (h2 : acc.2.Nodup) :
    (L.foldl classifyIndex acc).1.Nodup ∧ (L.foldl classifyIndex acc).2.Nodup := by
  induction L generalizing acc with
  | nil => exact ⟨h1, h2⟩
  | cons a t ih =>
      rw [List.foldl_cons]
      obtain ⟨g1, g2⟩ := nodup_classifyIndex h1 h2
      exact ih g1 g2

/-- The numbers one part contributes (following the claim: a well-ordered
range a-b contributes its elements, a standalone number contributes
itself, anything else contributes nothing). -/
def partContrib (part : List Char) (m : Nat) : Prop :=
  match parseRangePart (trimChars part) with
  | some (a, b) => a ≤ b ∧ a ≤ m ∧ m ≤ b
  | none => parseDigits (trimChars part) = some m

theorem mem_processPart_fst {acc : List Nat × List Nat} {part : List Char} {m : Nat} :
    m ∈ (processPart acc part).1 ↔ m ∈ acc.1 ∨ (partContrib part m ∧ 1 ≤ m ∧ m ≤ 5) := by
  unfold processPart partContrib
  dsimp only
  split_ifs with hemp
  · rw [hemp]
    have h1 : parseRangePart ([] : List Char) = none := rfl
    have h2 : parseDigits ([] : List Char) = none := rfl
    rw [h1, h2]
    simp
  · cases hr : parseRangePart (trimChars part) with
    | some ab =>
        obtain ⟨a, b⟩ := ab
        dsimp only
        split_ifs with hba
        · constructor
          · exact Or.inl
          · rintro (h | ⟨⟨hab, _⟩, _⟩)
            · exact h
            · omega
        · rw [mem_foldl_classify_fst]
          constructor
          · rintro (h | ⟨hmem, hb⟩)
            · exact Or.inl h
            · rw [List.mem_range'_1] at hmem
              exact Or.inr ⟨⟨by omega, by omega, by omega⟩, hb⟩
          · rintro (h | ⟨⟨hab, ham, hmb⟩, hb⟩)
            · exact Or.inl h
            · exact Or.inr ⟨List.mem_range'_1.mpr ⟨ham, by omega⟩, hb⟩
    | none =>
        cases hd : parseDigits (trimChars part) with
        | some n =>
            rw [mem_classifyIndex_fst]
            constructor
            · rintro (h | ⟨rfl, hb⟩)
              · exact Or.inl h
              · exact Or.inr ⟨rfl, hb⟩
            · rintro (h | ⟨heq, hb⟩)
              · exact Or.inl h
              · obtain rfl : n = m := by simpa using heq
                exact Or.inr ⟨rfl, hb⟩
        | none => simp

theorem mem_processPart_snd {acc : List Nat × List Nat} {part : List Char} {m : Nat} :
    m ∈ (processPart acc part).2 ↔ m ∈ acc.2 ∨ (partContrib part m ∧ ¬(1 ≤ m ∧ m ≤ 5)) := by
  unfold processPart partContrib
  dsimp only
  split_ifs with hemp
  · rw [hemp]
    have h1 : parseRangePart ([] : List Char) = none := rfl
    have h2 : parseDigits ([] : List Char) = none := rfl
    rw [h1, h2]
    simp
  · cases hr : parseRangePart (trimChars part) with
    | some ab =>
        obtain ⟨a, b⟩ := ab
        dsimp only
        split_ifs with hba
        · constructor
          · exact Or.inl
          · rintro (h | ⟨⟨hab, _⟩, _⟩)
            · exact h
            · omega
        · rw [mem_foldl_classify_snd]
          constructor
          · rintro (h | ⟨hmem, hb⟩)
            · exact Or.inl h
            · rw [List.mem_range'_1] at hmem
              exact Or.inr ⟨⟨by omega, by omega, by omega⟩, hb⟩
          · rintro (h | ⟨⟨hab, ham, hmb⟩, hb⟩)
            · exact Or.inl h
            · exact Or.inr ⟨List.mem_range'_1.mpr ⟨ham, by omega⟩, hb⟩
    | none =>
        cases hd : parseDigits (trimChars part) with
        | some n =>
            rw [mem_classifyIndex_snd]
            constructor
            · rintro (h | ⟨rfl, hb⟩)
              · exact Or.inl h
              · exact Or.inr ⟨rfl, hb⟩
            · rintro (h | ⟨heq, hb⟩)
              · exact Or.inl h
              · obtain rfl : n = m := by simpa using heq
                exact Or.inr ⟨rfl, hb⟩
        | none => simp

theorem nodup_processPart {acc : List Nat × List Nat} {part : List Char}
    (h1 : acc.1.Nodup) (h2 : acc.2.Nodup) :
    (processPart acc part).1.Nodup ∧ (processPart acc part).2.Nodup := by
  unfold processPart
  dsimp only
  split_ifs with hemp
  · exact ⟨h1, h2⟩
  · cases parseRangePart (trimChars part) with
    | some ab =>
        obtain ⟨a, b⟩ := ab
        dsimp only
        split_ifs with hba
        · exact ⟨h1, h2⟩
        · exact nodup_foldl_classify h1 h2
    | none =>
        cases parseDigits (trimChars part) with
        | some n => exact nodup_classifyIndex h1 h2
        | none => exact ⟨h1, h2⟩

theorem mem_foldl_processPart_fst {parts : List (List Char)} {acc : List Nat × List Nat}
    {m : Nat} :
    m ∈ (parts.foldl processPart acc).1 ↔
      m ∈ acc.1 ∨ ((∃ part ∈ parts, partContrib part m) ∧ 1 ≤ m ∧ m ≤ 5) := by
  induction parts generalizing acc with
  | nil => simp
  | cons p t ih =>
      rw [List.foldl_cons, ih, mem_processPart_fst]
      constructor
      · rintro ((h | ⟨hc, hb⟩) | ⟨⟨part, hpt, hc⟩, hb⟩)
        · exact Or.inl h
        · exact Or.inr ⟨⟨p, by simp, hc⟩, hb⟩
        · exact Or.inr ⟨⟨part, by simp [hpt], hc⟩, hb⟩
      · rintro (h | ⟨⟨part, hmem, hc⟩, hb⟩)
        · exact Or.inl (Or.inl h)
        · rcases List.mem_cons.mp hmem with rfl | ht
          · exact Or.inl (Or.inr ⟨hc, hb⟩)
          · exact Or.inr ⟨⟨part, ht, hc⟩, hb⟩

theorem mem_foldl_processPart_snd {parts : List (List Char)} {acc : List Nat × List Nat}
    {m : Nat} :
    m ∈ (parts.foldl processPart acc).2 ↔
      m ∈ acc.2 ∨ ((∃ part ∈ parts, partContrib part m) ∧ ¬(1 ≤ m ∧ m ≤ 5)) := by
  induction parts generalizing acc with
  | nil => simp
  | cons p t ih =>
      rw [List.foldl_cons, ih, mem_processPart_snd]
      constructor
      · rintro ((h | ⟨hc, hb⟩) | ⟨⟨part, hpt, hc⟩, hb⟩)
        · exact Or.inl h
        · exact Or.inr ⟨⟨p, by simp, hc⟩, hb⟩
        · exact Or.inr ⟨⟨part, by simp [hpt], hc⟩, hb⟩
      · rintro (h | ⟨⟨part, hmem, hc⟩, hb⟩)
        · exact Or.inl (Or.inl h)
        · rcases List.mem_cons.mp hmem with rfl | ht
          · exact Or.inl (Or.inr ⟨hc, hb⟩)
          · exact Or.inr ⟨⟨part, ht, hc⟩, hb⟩

theorem nodup_foldl_processPart {parts : List (List Char)} {acc : List Nat × List Nat}
    (h1 : acc.1.Nodup) (h2 : acc.2.Nodup) :
    (parts.foldl processPart acc).1.Nodup ∧ (parts.foldl processPart acc).2.Nodup := by
  induction parts generalizing acc with
  | nil => exact ⟨h1, h2⟩
  | cons p t ih =>
      rw [List.foldl_cons]
      obtain ⟨g1, g2⟩ := nodup_processPart h1 h2
      exact ih g1 g2

theorem parseNumericSelection_eq_pos (input : String)
    (hd : hasDigit (trimChars (removeKeywords input.data)) = true) :
    parseNumericSelection input =
      ⟨List.insertionSort (· ≤ ·)
          (((splitPartsGo [] (trimChars (removeKeywords input.data))).foldl processPart
              ([], [])).1),
        List.insertionSort (· ≤ ·)
          (((splitPartsGo [] (trimChars (removeKeywords input.data))).foldl processPart
              ([], [])).2),
        true⟩ := by
  unfold parseNumericSelection
  dsimp only
  rw [if_neg (by simp [hd])]

theorem parseNumericSelection_eq_neg (input : String)
    (hd : hasDigit (trimChars (removeKeywords input.data)) = false) :
    parseNumericSelection input =
      ⟨[], [], decide (trimChars (removeKeywords input.data) ≠ [])⟩ := by
  unfold parseNumericSelection
  dsimp only
  rw [if_pos (by simp [hd])]

/-- Claim C4: parseNumericSelection returns duplicate-free ascending
selectedIndices within 1..5 and duplicate-free ascending invalidIndices
holding exactly the standalone or range-expanded numbers outside 1..5 (a
reversed range a-b with a greater than b contributes nothing); with no
digit in the keyword-cleaned input both lists are empty and hasInput
reflects whether the cleaned input is non-empty. -/
theorem parseNumericSelection_spec (input : String) :
    (List.Sorted (· ≤ ·) (parseNumericSelection input).selectedIndices ∧
      (parseNumericSelection input).selectedIndices.Nodup ∧
      List.Sorted (· ≤ ·) (parseNumericSelection input).invalidIndices ∧
      (parseNumericSelection input).invalidIndices.Nodup) ∧
    (∀ n ∈ (parseNumericSelection input).selectedIndices, 1 ≤ n ∧ n ≤ 5) ∧
    (hasDigit (trimChars (removeKeywords input.data)) = true →
      (∀ n, n ∈ (parseNumericSelection input).selectedIndices ↔
        ((∃ part ∈ splitPartsGo [] (trimChars (removeKeywords input.data)),
            partContrib part n) ∧ 1 ≤ n ∧ n ≤ 5)) ∧
      (∀ n, n ∈ (parseNumericSelection input).invalidIndices ↔
        ((∃ part ∈ splitPartsGo [] (trimChars (removeKeywords input.data)),
            partContrib part n) ∧ ¬(1 ≤ n ∧ n ≤ 5)))) ∧
    (hasDigit (trimChars (removeKeywords input.data)) = false →
      (parseNumericSelection input).selectedIndices = [] ∧
      (parseNumericSelection input).invalidIndices = [] ∧
      ((parseNumericSelection input).hasInput = true ↔
        trimChars (removeKeywords input.data) ≠ [])) := by
  by_cases hd : hasDigit (trimChars (removeKeywords input.data)) = true
  · rw [parseNumericSelection_eq_pos input hd]
    have hnd := @nodup_foldl_processPart
      (splitPartsGo [] (trimChars (removeKeywords input.data))) ([], [])
      (by simp) (by simp)
    refine ⟨⟨?_, ?_, ?_, ?_⟩, ?_, ?_, ?_⟩
    · exact List.sorted_insertionSort _ _
    · exact (List.perm_insertionSort _ _).symm.nodup hnd.1
    · exact List.sorted_insertionSort _ _
    · exact (List.perm_insertionSort _ _).symm.nodup hnd.2
    · intro n hn
      have hmem := ((List.perm_insertionSort _ _).mem_iff).mp hn
      rcases mem_foldl_processPart_fst.mp hmem with h | ⟨_, hb⟩
      · simp at h
      · exact hb
    · intro _
      constructor
      · intro n
        rw [(List.perm_insertionSort _ _).mem_iff, mem_foldl_processPart_fst]
        simp
      · intro n
        rw [(List.perm_insertionSort _ _).mem_iff, mem_foldl_processPart_snd]
        simp
    · intro hfalse
      rw [hd] at hfalse
      cases hfalse
  · have hdf : hasDigit (trimChars (removeKeywords input.data)) = false := by
      simpa using hd
    rw [parseNumericSelection_eq_neg input hdf]
    refine ⟨⟨?_, ?_, ?_, ?_⟩, ?_, ?_, ?_⟩
    · exact List.sorted_nil
    · exact List.nodup_nil
    · exact List.sorted_nil
    · exact List.nodup_nil
    · intro n hn
      simp at hn
    · intro htrue
      rw [hdf] at htrue
      cases htrue
    · intro _
      exact ⟨rfl, rfl, by simp⟩

/-- Witness for C4: the cleaned form of "editors" has no digit (both
lists empty, hasInput true since "s" remains), and in "select 1, 3-5, 9"
the number 9 is invalid exactly as a standalone out-of-range entry. -/
theorem parseNumericSelection_spec_witness :
    ((parseNumericSelection "editors").selectedIndices = [] ∧
      (parseNumericSelection "editors").invalidIndices = [] ∧
      ((parseNumericSelection "editors").hasInput = true ↔
        trimChars (removeKeywords "editors".data) ≠ [])) ∧
    (9 ∈ (parseNumericSelection "select 1, 3-5, 9").invalidIndices ↔
      ((∃ part ∈ splitPartsGo [] (trimChars (removeKeywords "select 1, 3-5, 9".data)),
          partContrib part 9) ∧ ¬(1 ≤ 9 ∧ 9 ≤ 5))) :=
  ⟨(parseNumericSelection_spec "editors").2.2.2 (by decide),
    ((parseNumericSelection_spec "select 1, 3-5, 9").2.2.1 (by decide)).2 9⟩

theorem disjointDesc_bounds {l : List HighlightItem} {k : Nat}
    (h : disjointDesc l k = true) : ∀ r ∈ l, r.start ≤ r.stop ∧ r.stop ≤ k := by
  induction l generalizing k with
  | nil => intro r hr; simp at hr
  | cons it rest ih =>
      unfold disjointDesc at h
      rw [Bool.and_eq_true, Bool.and_eq_true] at h
      obtain ⟨⟨hstop, hse⟩, hrest⟩ := h
      intro r hr
      rcases List.mem_cons.mp hr with rfl | hmem
      · exact ⟨by simpa using hse, by simpa using hstop⟩
      · obtain ⟨g1, g2⟩ := ih hrest r hmem
        refine ⟨g1, le_trans g2 (le_trans (by simpa using hse) (by simpa using hstop))⟩

theorem applyHighlightItems_aux (wrap : HighlightItem → List Char)
    (items : List HighlightItem) (a b : List Char)
    (h : disjointDesc items a.length = true) :
    applyHighlightItems wrap items (a ++ b) = wrapEachOccurrence wrap items a ++ b := by
  induction items generalizing a b with
  | nil => rfl
  | cons it rest ih =>
      unfold disjointDesc at h
      rw [Bool.and_eq_true, Bool.and_eq_true] at h
      obtain ⟨⟨hstop, hse⟩, hrest⟩ := h
      have hstopN : it.stop ≤ a.length := by simpa using hstop
      have hseN : it.start ≤ it.stop := by simpa using hse
      have hstartN : it.start ≤ a.length := le_trans hseN hstopN
      have htake : (a ++ b).take it.start = a.take it.start :=
        List.take_append_of_le_length hstartN
      have hdrop : (a ++ b).drop it.stop = a.drop it.stop ++ b :=
        List.drop_append_of_le_length hstopN
      have hlen : (a.take it.start).length = it.start := by
        rw [List.length_take]
        omega
      show applyHighlightItems wrap rest
          ((a ++ b).take it.start ++ wrap it ++ (a ++ b).drop it.stop) = _
      rw [htake, hdrop]
      have harg : a.take it.start ++ wrap it ++ (a.drop it.stop ++ b) =
          a.take it.start ++ (wrap it ++ (a.drop it.stop ++ b)) := by
        simp [List.append_assoc]
      rw [List.append_assoc]
      rw [ih (a.take it.start) (wrap it ++ (a.drop it.stop ++ b)) (by rw [hlen]; exact hrest)]
      show _ = (wrapEachOccurrence wrap rest (a.take it.start) ++ wrap it ++ a.drop it.stop) ++ b
      simp [List.append_assoc]

theorem applyHighlightItems_disjoint (wrap : HighlightItem → List Char)
    (items : List HighlightItem) (s : List Char)
    (h : disjointDesc items s.length = true) :
    applyHighlightItems wrap items s = wrapEachOccurrence wrap items s := by
  have := applyHighlightItems_aux wrap items s [] (by simpa using h)
  simpa using this

/-- Claim C5 (amended): highlightAllFeedbacks strips the HTML from both
texts first; a side with no collected feedback occurrences is returned as
the stripped text unchanged; and provided the collected occurrence ranges
(descending-sorted) are pairwise disjoint, every occurrence of an issue in
the original and of a fix in the edited text is wrapped in its status
span — approved: strikeout-yellow / green, rejected: green /
strikeout-yellow, undecided: yellow / yellow — applied from the last
occurrence back to the first with the rest of the text untouched. -/
theorem highlightAllFeedbacks_spec (para : ParagraphEdit) :
    let feedbacks :=
      match para.editorial_feedback with
      | some ef => feedbackList ef
      | none => []
    let origStripped := stripHtmlChars para.original.data
    let editedStripped := stripHtmlChars para.edited.data
    (collectItems (·.issue) feedbacks origStripped = [] →
      (highlightAllFeedbacks para).1 = String.mk origStripped) ∧
    (collectItems (·.fix) feedbacks editedStripped = [] →
      (highlightAllFeedbacks para).2 = String.mk editedStripped) ∧
    (disjointDesc (sortItemsDesc (collectItems (·.issue) feedbacks origStripped))
        origStripped.length = true →
      (highlightAllFeedbacks para).1 =
        String.mk (wrapEachOccurrence wrapOriginalItem
          (sortItemsDesc (collectItems (·.issue) feedbacks origStripped)) origStripped)) ∧
    (disjointDesc (sortItemsDesc (collectItems (·.fix) feedbacks editedStripped))
        editedStripped.length = true →
      (highlightAllFeedbacks para).2 =
        String.mk (wrapEachOccurrence wrapEditedItem
          (sortItemsDesc (collectItems (·.fix) feedbacks editedStripped)) editedStripped)) := by
  refine ⟨?_, ?_, ?_, ?_⟩
  · intro hitems
    unfold highlightAllFeedbacks
    dsimp only
    rw [hitems]
    rfl
  · intro hitems
    unfold highlightAllFeedbacks
    dsimp only
    rw [hitems]
    rfl
  · intro hdisj
    unfold highlightAllFeedbacks
    dsimp only
    rw [applyHighlightItems_disjoint _ _ _ hdisj]
  · intro hdisj
    unfold highlightAllFeedbacks
    dsimp only
    rw [applyHighlightItems_disjoint _ _ _ hdisj]

/-- Claim C5 counterexample: with two undecided feedback issues "ab" and
"b" on the original text "ab", the occurrence of "b" is matched ("b"
occurs in the stripped original) yet its yellow-wrapped form appears
nowhere in the rendered output — the overlapping replacement corrupted
the span inserted for it — contradicting "every occurrence ... is
wrapped in a span". -/
theorem highlightAllFeedbacks_counterexample :
    hasSubstring
        (stripHtmlChars (ParagraphEdit.original
          ⟨0, "ab", "x", [], none, none,
            some ⟨[⟨some "ab", none, "Important", .undef⟩,
              ⟨some "b", none, "Important", .undef⟩], [], [], [], []⟩,
            none, none⟩).data)
        "b".data = true ∧
    hasSubstring
        (highlightAllFeedbacks
          ⟨0, "ab", "x", [], none, none,
            some ⟨[⟨some "ab", none, "Important", .undef⟩,
              ⟨some "b", none, "Important", .undef⟩], [], [], [], []⟩,
            none, none⟩).1.data
        (spanWrap "highlight-yellow" "b".data) = false := by
  decide

/-- Witness for C5: disjoint occurrences "ab" (approved) and "cd"
(rejected) in "ab cd" are each wrapped with their status classes. -/
theorem highlightAllFeedbacks_spec_witness :
    (highlightAllFeedbacks
        ⟨0, "ab cd", "", [], none, none,
          some ⟨[⟨some "ab", none, "Important", .val true⟩,
            ⟨some "cd", none, "Important", .val false⟩], [], [], [], []⟩,
          none, none⟩).1 =
      String.mk (wrapEachOccurrence wrapOriginalItem
        (sortItemsDesc (collectItems (·.issue)
          (feedbackList ⟨[⟨some "ab", none, "Important", .val true⟩,
            ⟨some "cd", none, "Important", .val false⟩], [], [], [], []⟩)
          (stripHtmlChars "ab cd".data)))
        (stripHtmlChars "ab cd".data)) :=
  (highlightAllFeedbacks_spec
      ⟨0, "ab cd", "", [], none, none,
        some ⟨[⟨some "ab", none, "Important", .val true⟩,
          ⟨some "cd", none, "Important", .val false⟩], [], [], [], []⟩,
        none, none⟩).2.2.1 (by decide)
